import Mathlib

/-! Verification of the FlowBoard task-board core against its specification.

The development shallowly embeds the two algorithmic pieces of the repository:

* the board state engine (`src/hooks/useBoard.ts`): the normalized
  task/column data model, the mutation operations `addTask`, `updateTask`,
  `deleteTask`, `moveTask`, `resetBoard`, `clearBoard`, and the snapshot
  undo/redo history;
* the chatbot helpers (`src/components/Chatbot.tsx`): the task matcher
  `findTaskInMessage`, the date resolver `parseNaturalDate`, the reference
  resolvers, and the create branch of `processMessage`.

Modelling conventions: JavaScript strings are Lean `String` values and are
processed as `List Char` (JavaScript `toLowerCase` on the ASCII data in this
program is `Char.toLower`); fresh uuids and `new Date()` timestamps are
opaque `String`/`Int` parameters supplied by the environment; a JavaScript
record spread over `undefined` (which produces an object missing most task
fields) is the `StoredTask.raw` constructor; operations that can throw a
`TypeError` return `Option`, with `none` marking the thrown exception.
JavaScript `Array.prototype.sort` with a consistent comparator is a stable
sort and is modelled by `List.insertionSort`; the floating-point score
comparisons of the matcher are modelled by exact cross-multiplication of the
integer numerators and denominators the code divides. -/

namespace FlowBoard

/-! ## Data model (src/types.ts) -/

inductive Priority where
  | high
  | medium
  | low
deriving DecidableEq

inductive ColumnId where
  | todo
  | inProgress
  | done
deriving DecidableEq

/-- Task record from src/types.ts.  `dueDate` and `completedAt` are
`string | null` in the source; `none` is `null`. -/
structure Task where
  id : String
  title : String
  description : String
  priority : Priority
  dueDate : Option String
  tags : List String
  createdAt : String
  completedAt : Option String
  columnId : ColumnId
deriving DecidableEq

/-- Partial update record, `Partial<Omit<Task, 'id' | 'createdAt'>>` from
the `updateTask` signature.  An outer `none` means the field is absent from
the update object; for `dueDate` and `completedAt` the inner option is the
`string | null` value. -/
structure TaskUpdates where
  title : Option String
  description : Option String
  priority : Option Priority
  dueDate : Option (Option String)
  tags : Option (List String)
  completedAt : Option (Option String)
  columnId : Option ColumnId
deriving DecidableEq

/-- Update object with no fields present. -/
def noUpdates : TaskUpdates := ⟨none, none, none, none, none, none, none⟩

/-- Value stored in the `tasks` record of the board.  `real` is a complete
task object; `raw u` is the malformed object produced by the JavaScript
spread `{ ...prev.tasks[taskId], ...updates }` when `prev.tasks[taskId]` is
`undefined`, which holds exactly the fields present in `u`. -/
inductive StoredTask where
  | real (t : Task)
  | raw (u : TaskUpdates)
deriving DecidableEq

structure Column where
  id : ColumnId
  title : String
  taskIds : List String
deriving DecidableEq

/-- Board state: `tasks` is the JavaScript object `Record<string, Task>`
modelled as an association list in key-insertion order (the order
`Object.values` enumerates); the three fixed columns of
`Record<ColumnId, Column>` are separate fields. -/
structure Board where
  tasks : List (String × StoredTask)
  colTodo : Column
  colInProgress : Column
  colDone : Column
  columnOrder : List ColumnId
deriving DecidableEq

def getCol (b : Board) : ColumnId → Column
  | .todo => b.colTodo
  | .inProgress => b.colInProgress
  | .done => b.colDone

/-- Replace the `taskIds` of one column, keeping its `id` and `title` (the
object spreads in the source always do this). -/
def setColIds (b : Board) (c : ColumnId) (ids : List String) : Board :=
  match c with
  | .todo => { b with colTodo := { b.colTodo with taskIds := ids } }
  | .inProgress => { b with colInProgress := { b.colInProgress with taskIds := ids } }
  | .done => { b with colDone := { b.colDone with taskIds := ids } }

/-! ## Association-list primitives for the `tasks` record -/

/-- Property read `obj[k]`, `undefined` as `none`. -/
def alLookup (l : List (String × StoredTask)) (k : String) : Option StoredTask :=
  match l.find? (fun p => p.1 == k) with
  | some p => some p.2
  | none => none

/-- Property write `{ ...obj, [k]: v }` (or `obj[k] = v`): an existing key
keeps its position with the new value, a new key is appended.  JavaScript
object keys are unique, so replacing the first occurrence is exact. -/
def alInsert : List (String × StoredTask) → String → StoredTask → List (String × StoredTask)
  | [], k, v => [(k, v)]
  | p :: l, k, v => if p.1 == k then (k, v) :: l else p :: alInsert l k v

/-- Property delete `delete obj[k]`. -/
def alRemove (l : List (String × StoredTask)) (k : String) : List (String × StoredTask) :=
  l.filter (fun p => !(p.1 == k))

/-! ## JavaScript field access on stored tasks -/

/-- Read `.columnId` from a stored task, `undefined` as `none`. -/
def StoredTask.jsColumnId : StoredTask → Option ColumnId
  | .real t => some t.columnId
  | .raw u => u.columnId

/-- Read `.completedAt` from a stored task: outer `none` is `undefined`
(field absent), `some none` is `null`. -/
def StoredTask.jsCompletedAt : StoredTask → Option (Option String)
  | .real t => some t.completedAt
  | .raw u => u.completedAt

/-- JavaScript truthiness test `!x` on a `completedAt` value: `undefined`,
`null` and the empty string are falsy. -/
def jsFalsyCompleted (x : Option (Option String)) : Bool :=
  match x with
  | none => true
  | some none => true
  | some (some s) => s == ""

/-- Object spread `{ ...t, ...u }` for a complete task `t`. -/
def Task.applyUpdates (t : Task) (u : TaskUpdates) : Task :=
  { t with
    title := u.title.getD t.title
    description := u.description.getD t.description
    priority := u.priority.getD t.priority
    dueDate := u.dueDate.getD t.dueDate
    tags := u.tags.getD t.tags
    completedAt := u.completedAt.getD t.completedAt
    columnId := u.columnId.getD t.columnId }

/-- Object spread `{ ...g, ...u }` for two partial records. -/
def TaskUpdates.override (g u : TaskUpdates) : TaskUpdates :=
  ⟨u.title <|> g.title, u.description <|> g.description, u.priority <|> g.priority,
    u.dueDate <|> g.dueDate, u.tags <|> g.tags, u.completedAt <|> g.completedAt,
    u.columnId <|> g.columnId⟩

/-- Value of `{ ...prev.tasks[taskId], ...updates }` for a possibly absent
stored task. -/
def mergeStored (old : Option StoredTask) (u : TaskUpdates) : StoredTask :=
  match old with
  | some (.real t) => .real (t.applyUpdates u)
  | some (.raw g) => .raw (g.override u)
  | none => .raw u

/-! ## Board mutations (src/hooks/useBoard.ts lines 108-230) -/

/-- addTask (lines 108-136).  `id` is the fresh uuid and `now` the
`new Date().toISOString()` timestamp supplied by the environment. -/
def addTask (b : Board) (columnId : ColumnId) (title description : String)
    (priority : Priority) (dueDate : Option String) (tags : List String)
    (id now : String) : Board :=
  let task : Task :=
    ⟨id, title, description, priority, dueDate, tags, now,
      if columnId = .done then some now else none, columnId⟩
  let b1 : Board := { b with tasks := alInsert b.tasks id (.real task) }
  setColIds b1 columnId ((getCol b columnId).taskIds ++ [id])

/-- updateTask (lines 138-147).  Note that for an absent `taskId` the spread
over `undefined` still installs a new (malformed) entry under that key. -/
def updateTask (b : Board) (taskId : String) (u : TaskUpdates) : Board :=
  { b with tasks := alInsert b.tasks taskId (mergeStored (alLookup b.tasks taskId) u) }

/-- deleteTask (lines 149-168).  An absent id returns the board unchanged
(`if (!task) return prev`).  A stored task without a `columnId` field would
make `prev.columns[task.columnId].taskIds` throw; `none` marks that throw. -/
def deleteTask (b : Board) (taskId : String) : Option Board :=
  match alLookup b.tasks taskId with
  | none => some b
  | some st =>
    match st.jsColumnId with
    | none => none
    | some c =>
      some (setColIds { b with tasks := alRemove b.tasks taskId } c
        ((getCol b c).taskIds.filter (fun i => !(i == taskId))))

/-- Effect of `arr.splice(arr.indexOf(x), 1)`: removes the first occurrence
of `x`; when `x` is absent, `indexOf` is `-1` and `splice(-1, 1)` removes the
last element (and nothing from an empty array). -/
def jsSpliceRemoveOne (l : List String) (x : String) : List String :=
  if l.any (fun i => i == x) then l.erase x else l.dropLast

/-- Insertion index of `arr.splice(i, 0, x)`: a non-negative `i` is clamped
to the length, a negative `i` counts back from the end of the array. -/
def jsSpliceIdx (i : Int) (len : Nat) : Nat :=
  if i < 0 then ((len : Int) + i).toNat else min i.toNat len

/-- Effect of `arr.splice(i, 0, x)`. -/
def jsSpliceInsert (i : Int) (x : String) (l : List String) : List String :=
  l.insertIdx (jsSpliceIdx i l.length) x

/-- moveTask (lines 170-202).  `now` is the `new Date().toISOString()`
timestamp.  When `destCol` is `done` and the task is absent, the read
`prev.tasks[taskId].completedAt` throws a `TypeError`; `none` marks that
throw.  In every other case the updated record is the spread
`{ ...prev.tasks[taskId], columnId: destCol, completedAt: ... }`. -/
def moveTask (b : Board) (taskId : String) (sourceCol destCol : ColumnId)
    (destIndex : Int) (now : String) : Option Board :=
  let sourceTaskIds := jsSpliceRemoveOne (getCol b sourceCol).taskIds taskId
  let destTaskIds :=
    jsSpliceInsert destIndex taskId
      (if sourceCol = destCol then sourceTaskIds else (getCol b destCol).taskIds)
  let withCols : Board :=
    if sourceCol = destCol then setColIds b sourceCol destTaskIds
    else setColIds (setColIds b sourceCol sourceTaskIds) destCol destTaskIds
  match alLookup b.tasks taskId with
  | none =>
    if destCol = .done then none
    else
      some { withCols with
        tasks := alInsert b.tasks taskId
          (.raw { noUpdates with columnId := some destCol, completedAt := some none }) }
  | some (.real t) =>
    some { withCols with
      tasks := alInsert b.tasks taskId
        (.real { t with
          columnId := destCol
          completedAt :=
            if destCol = .done then
              if jsFalsyCompleted (some t.completedAt) then some now else t.completedAt
            else none }) }
  | some (.raw g) =>
    some { withCols with
      tasks := alInsert b.tasks taskId
        (.raw { g with
          columnId := some destCol
          completedAt :=
            some (if destCol = .done then
                if jsFalsyCompleted g.completedAt then some now else g.completedAt.getD none
              else none) }) }

/-- Parameters of `createDefaultBoard` that the environment generates: the
six uuids, the computed due-date strings and creation timestamps, and the
completion timestamp of the sample task sitting in `done`. -/
structure SeedParams where
  i1 : String
  i2 : String
  i3 : String
  i4 : String
  i5 : String
  i6 : String
  due1 : String
  due2 : String
  due3 : String
  due4 : String
  due5 : String
  created1 : String
  created2 : String
  created3 : String
  created4 : String
  created5 : String
  created6 : String
  completed6 : String
deriving DecidableEq

/-- Sample tasks of createDefaultBoard (lines 8-39). -/
def sampleTasks (p : SeedParams) : List Task :=
  [⟨p.i1, "Design homepage mockup",
      "Create wireframes and high-fidelity mockups for the new landing page redesign.",
      .high, some p.due1, ["design", "ui"], p.created1, none, .todo⟩,
   ⟨p.i2, "Set up CI/CD pipeline",
      "Configure GitHub Actions for automated testing and deployment.",
      .medium, some p.due2, ["devops", "backend"], p.created2, none, .todo⟩,
   ⟨p.i3, "Write API documentation",
      "Document all REST API endpoints with request/response examples.",
      .low, some p.due3, ["docs"], p.created3, none, .todo⟩,
   ⟨p.i4, "Implement user authentication",
      "Build login/signup flow with OAuth and JWT tokens.",
      .high, some p.due4, ["backend", "security"], p.created4, none, .inProgress⟩,
   ⟨p.i5, "Optimize database queries",
      "Review and optimize slow SQL queries identified in performance monitoring.",
      .medium, some p.due5, ["backend", "performance"], p.created5, none, .inProgress⟩,
   ⟨p.i6, "Setup project repository",
      "Initialize repo with proper folder structure, linting, and README.",
      .high, none, ["devops"], p.created6, some p.completed6, .done⟩]

/-- createDefaultBoard (lines 7-53): the tasks record is built from the
sample array in order, and each column holds the ids of the sample tasks
whose `columnId` matches, in order. -/
def createDefaultBoard (p : SeedParams) : Board :=
  { tasks := (sampleTasks p).map (fun t => (t.id, .real t))
    colTodo := ⟨.todo, "To Do",
      ((sampleTasks p).filter (fun t => decide (t.columnId = .todo))).map (fun t => t.id)⟩
    colInProgress := ⟨.inProgress, "In Progress",
      ((sampleTasks p).filter (fun t => decide (t.columnId = .inProgress))).map (fun t => t.id)⟩
    colDone := ⟨.done, "Done",
      ((sampleTasks p).filter (fun t => decide (t.columnId = .done))).map (fun t => t.id)⟩
    columnOrder := [.todo, .inProgress, .done] }

/-- Board installed by clearBoard (lines 217-230). -/
def emptyBoardState : Board :=
  { tasks := []
    colTodo := ⟨.todo, "To Do", []⟩
    colInProgress := ⟨.inProgress, "In Progress", []⟩
    colDone := ⟨.done, "Done", []⟩
    columnOrder := [.todo, .inProgress, .done] }

/-! ## Store with history (useBoard state and pushHistory/undo/redo) -/

structure Store where
  board : Board
  history : List Board
  future : List Board
deriving DecidableEq

/-- Last `n` elements, the effect of `arr.slice(-n)`. -/
def takeLast {α : Type} (n : Nat) (l : List α) : List α :=
  l.drop (l.length - n)

/-- Mutations of the store; the constructors carry the environment-supplied
values (fresh uuids, timestamps, the freshly generated seed board data). -/
inductive Mutation where
  | add (columnId : ColumnId) (title description : String) (priority : Priority)
      (dueDate : Option String) (tags : List String) (id now : String)
  | update (taskId : String) (u : TaskUpdates)
  | del (taskId : String)
  | move (taskId : String) (sourceCol destCol : ColumnId) (destIndex : Int) (now : String)
  | reset (p : SeedParams)
  | clear

/-- Board transformer of each mutation; `none` marks a thrown exception. -/
def mutateBoard : Mutation → Board → Option Board
  | .add c t d pr dd tg id now, b => some (addTask b c t d pr dd tg id now)
  | .update tid u, b => some (updateTask b tid u)
  | .del tid, b => deleteTask b tid
  | .move tid s dcol i now, b => moveTask b tid s dcol i now
  | .reset p, _ => some (createDefaultBoard p)
  | .clear, _ => some emptyBoardState

/-- Every mutation first runs pushHistory (lines 87-90): the previous board
is pushed onto the history capped via `slice(-49)`, and the redo stack is
cleared; then the new board is installed. -/
def applyMutation (m : Mutation) (s : Store) : Option Store :=
  (mutateBoard m s.board).map
    (fun b' => ⟨b', takeLast 49 s.history ++ [s.board], []⟩)

/-- undo (lines 92-98). -/
def undo (s : Store) : Store :=
  match s.history.getLast? with
  | none => s
  | some prev => ⟨prev, s.history.dropLast, s.future ++ [s.board]⟩

/-- redo (lines 100-106). -/
def redo (s : Store) : Store :=
  match s.future.getLast? with
  | none => s
  | some nxt => ⟨nxt, s.history ++ [s.board], s.future.dropLast⟩

/-- canUndo flag returned by useBoard (line 236). -/
def canUndo (s : Store) : Bool := decide (0 < s.history.length)

/-- canRedo flag returned by useBoard (line 237). -/
def canRedo (s : Store) : Bool := decide (0 < s.future.length)

/-- Stores reachable in a session: the initial state has empty stacks, and
every step is a mutation (when it does not throw), an undo, or a redo. -/
inductive StoreReachable : Store → Prop
  | init (b : Board) : StoreReachable ⟨b, [], []⟩
  | mutate {s s' : Store} (m : Mutation) :
      StoreReachable s → applyMutation m s = some s' → StoreReachable s'
  | undoStep {s : Store} : StoreReachable s → StoreReachable (undo s)
  | redoStep {s : Store} : StoreReachable s → StoreReachable (redo s)

/-! ## Caller discipline and the C1 invariant -/

/-- Arguments the callers actually supply to the four task mutations
(App.tsx `handleSaveTask`, `handleDeleteConfirm`, `onDragEnd`; Chatbot
`executeAction`):

* `addTask` receives a fresh `uuidv4()` id, so the id is neither a task key
  nor in any column list;
* `updateTask` receives the id of an existing task, and the update object
  either has no `columnId` field (all Chatbot updates) or carries the
  column the task is already in (App.tsx sends `columnId` only after first
  moving the task there with `moveTask`);
* `deleteTask` receives an arbitrary id (a stale id is possible);
* `moveTask` receives an existing task id with `sourceCol` the column the
  task is in (the drag source, or `task.columnId`);
* `resetBoard` and `clearBoard` are excluded: the claim quantifies over
  sequences of the four task operations only. -/
def CallerArgs (b : Board) : Mutation → Prop
  | .add _ _ _ _ _ _ id _ =>
    alLookup b.tasks id = none ∧ ∀ c : ColumnId, id ∉ (getCol b c).taskIds
  | .update tid u =>
    ∃ t, alLookup b.tasks tid = some (.real t) ∧
      (u.columnId = none ∨ u.columnId = some t.columnId)
  | .del _ => True
  | .move tid src _ _ _ =>
    ∃ t, alLookup b.tasks tid = some (.real t) ∧ t.columnId = src
  | .reset _ => False
  | .clear => False

/-- Distinctness of the six generated seed uuids. -/
def DistinctIds (p : SeedParams) : Prop :=
  p.i1 ≠ p.i2 ∧ p.i1 ≠ p.i3 ∧ p.i1 ≠ p.i4 ∧ p.i1 ≠ p.i5 ∧ p.i1 ≠ p.i6 ∧
  p.i2 ≠ p.i3 ∧ p.i2 ≠ p.i4 ∧ p.i2 ≠ p.i5 ∧ p.i2 ≠ p.i6 ∧
  p.i3 ≠ p.i4 ∧ p.i3 ≠ p.i5 ∧ p.i3 ≠ p.i6 ∧
  p.i4 ≠ p.i5 ∧ p.i4 ≠ p.i6 ∧ p.i5 ≠ p.i6

/-- Boards reachable from the seed board by the four task mutations with
caller-supplied arguments. -/
inductive ReachableBoard (p : SeedParams) : Board → Prop
  | seed : ReachableBoard p (createDefaultBoard p)
  | step {b b' : Board} (m : Mutation) :
      ReachableBoard p b → CallerArgs b m → mutateBoard m b = some b' →
      ReachableBoard p b'

/-- Inductive invariant: every column object carries its own key as `id`,
every stored task is a complete task object, and each task id occurs exactly
once in the column list named by its `columnId` and nowhere else. -/
def StrongInv (b : Board) : Prop :=
  (∀ c : ColumnId, (getCol b c).id = c) ∧
  (∀ id st, alLookup b.tasks id = some st → ∃ t, st = .real t) ∧
  (∀ id t, alLookup b.tasks id = some (.real t) →
    ∀ c : ColumnId, ((getCol b c).taskIds.count id) = if c = t.columnId then 1 else 0)

/-- Property claimed by C1: every task id present in the tasks mapping
appears in the column list named by its `columnId` field, that column object
carries that id, and no other column list contains the task id. -/
def InvClaim (b : Board) : Prop :=
  ∀ id : String, (alLookup b.tasks id).isSome →
    ∃ t : Task, alLookup b.tasks id = some (.real t) ∧
      id ∈ (getCol b t.columnId).taskIds ∧
      (getCol b t.columnId).id = t.columnId ∧
      ∀ c : ColumnId, id ∈ (getCol b c).taskIds → c = t.columnId

/-- Concrete seed parameters used to witness the reachability theorems. -/
def seedParams0 : SeedParams :=
  ⟨"a1", "a2", "a3", "a4", "a5", "a6", "d1", "d2", "d3", "d4", "d5",
    "c1", "c2", "c3", "c4", "c5", "c6", "f6"⟩

/-- Minimal concrete task used in counterexamples and witnesses. -/
def cxTask (id : String) : Task :=
  ⟨id, id, "", .medium, none, [], "t0", none, .todo⟩

/-- Concrete board with three tasks "a", "b", "c" in the todo column. -/
def cxBoard : Board :=
  { tasks := [("a", .real (cxTask "a")), ("b", .real (cxTask "b")), ("c", .real (cxTask "c"))]
    colTodo := ⟨.todo, "To Do", ["a", "b", "c"]⟩
    colInProgress := ⟨.inProgress, "In Progress", []⟩
    colDone := ⟨.done, "Done", []⟩
    columnOrder := [.todo, .inProgress, .done] }

/-- Insertion as the specification sentence for C5 words it: `destIndex`
clamped to the valid insertion range `[0, length]`. -/
def clampInsertSpec (i : Int) (x : String) (l : List String) : List String :=
  l.insertIdx (min (max i 0).toNat l.length) x

/-! ## Chatbot string primitives (src/components/Chatbot.tsx)

Strings are processed as `List Char`; the program data is ASCII, so
JavaScript `toLowerCase` is `Char.toLower`. -/

/-- Whitespace characters produced in this program (`\s`). -/
def isWsChar (c : Char) : Bool := c == ' ' || c == '\t' || c == '\n' || c == '\r'

/-- Line terminators, which the dot of a regular expression never matches. -/
def isNlChar (c : Char) : Bool := c == '\n' || c == '\r'

/-- toLowerCase. -/
def lowerChars (l : List Char) : List Char := l.map Char.toLower

/-- toLowerCase of a string, as characters. -/
def lowerStr (s : String) : List Char := lowerChars s.toList

/-- True when `p` is a prefix of `l`. -/
def chPrefix : List Char → List Char → Bool
  | [], _ => true
  | _ :: _, [] => false
  | p :: ps, c :: cs => p == c && chPrefix ps cs

/-- Case-insensitive prefix test; the pattern `p` is written lowercased. -/
def chPrefixCI : List Char → List Char → Bool
  | [], _ => true
  | _ :: _, [] => false
  | p :: ps, c :: cs => p == c.toLower && chPrefixCI ps cs

/-- `big.includes(sub)`. -/
def chContains (sub : List Char) : List Char → Bool
  | [] => chPrefix sub []
  | c :: cs => chPrefix sub (c :: cs) || chContains sub cs

/-- trim(). -/
def trimChars (l : List Char) : List Char :=
  ((l.dropWhile isWsChar).reverse.dropWhile isWsChar).reverse

/-- Helper of `splitWs`; `acc` holds the current fragment reversed. -/
def splitWsAux : List Char → List Char → List (List Char)
  | acc, [] => if acc.isEmpty then [] else [acc.reverse]
  | acc, c :: rest =>
    if isWsChar c then
      if acc.isEmpty then splitWsAux [] rest else acc.reverse :: splitWsAux [] rest
    else splitWsAux (c :: acc) rest

/-- `split(/\s+/)` without empty fragments.  The JavaScript split keeps one
empty fragment when the string starts with whitespace; every caller filters
the fragments by `length > 1`, which removes it, so the two agree where
used. -/
def splitWs (l : List Char) : List (List Char) := splitWsAux [] l

/-- The single-quote character, written by code to keep the file free of
bare apostrophes. -/
def sqChar : Char := Char.ofNat 39

def isQuoteChar (c : Char) : Bool := c == '"' || c == sqChar

/-- Capture of the leftmost match of /["']([^"']+)["']/: from the first
quote character, the maximal run of at least one non-quote character
followed by a quote character; later start positions are tried when a start
fails, exactly as the regular-expression engine does. -/
def firstQuoted : List Char → Option (List Char)
  | [] => none
  | c :: rest =>
    if isQuoteChar c then
      let run := rest.takeWhile (fun d => !isQuoteChar d)
      if run.isEmpty then firstQuoted rest
      else
        match rest.drop run.length with
        | [] => firstQuoted rest
        | _ :: _ => some run
    else firstQuoted rest

/-! ## Task matcher findTaskInMessage (Chatbot.tsx lines 40-98) -/

/-- Return value `{ task, candidates }` of findTaskInMessage. -/
structure MatchResult where
  task : Option Task
  candidates : List Task
deriving DecidableEq

/-- Stop words of the word-overlap stage (lines 67-73). -/
def stopWords : List String :=
  ["create", "add", "make", "new", "task", "move", "delete", "remove",
   "change", "set", "update", "edit", "modify", "rename", "complete", "finish",
   "start", "begin",
   "the", "a", "an", "to", "from", "of", "for", "with", "in", "on", "at", "by",
   "priority", "high", "medium", "low", "due", "date", "tag", "tags", "title", "name",
   "description", "desc", "details", "column", "status", "todo", "progress", "done",
   "please", "can", "you", "could", "would", "want", "need", "like", "it", "its",
   "and", "or", "but", "is", "are", "was", "were", "be", "been", "being", "my",
   "this", "that"]

/-- Comparator `(a, b) => b.title.length - a.title.length`: longest title
first.  `Array.prototype.sort` is stable, modelled by a stable insertion
sort. -/
def rLen (a b : Task) : Prop := b.title.length ≤ a.title.length

instance : DecidableRel rLen := fun a b => Nat.decLe _ _

def sortedByLength (ts : List Task) : List Task := List.insertionSort rLen ts

/-- Condition of strategy 1: the lowercased title has length at least 3 and
is a substring of the lowercased message. -/
def substrMatches (lower : List Char) (t : Task) : Bool :=
  decide (3 ≤ (lowerStr t.title).length) && chContains (lowerStr t.title) lower

/-- Strategy 1 (lines 57-63): first task of the length-sorted list whose
lowercased title is a long-enough substring of the message. -/
def substringStage (lower : List Char) (ts : List Task) : Option Task :=
  (sortedByLength ts).find? (substrMatches lower)

/-- Scored task of the word-overlap stage: `mc` is matchCount, `twc` the
number of title words; the floating-point score of the source is exactly
`mc / twc` (and 0 when `twc = 0`, in which case `mc = 0`), compared below by
exact cross-multiplication. -/
structure ScoredTask where
  task : Task
  mc : Nat
  twc : Nat
deriving DecidableEq

def titleWords (t : Task) : List (List Char) :=
  (splitWs (lowerStr t.title)).filter (fun w => decide (1 < w.length))

def contentWords (lower : List Char) : List (List Char) :=
  (splitWs lower).filter
    (fun w => decide (1 < w.length) && !(stopWords.contains (String.mk w)))

/-- One title word matches a content word by equality or containment either
direction (line 82). -/
def wordHit (tw mw : List Char) : Bool := tw == mw || chContains mw tw || chContains tw mw

def scoreTask (mws : List (List Char)) (t : Task) : ScoredTask :=
  ⟨t, (titleWords t).countP (fun tw => mws.any (fun mw => wordHit tw mw)),
    (titleWords t).length⟩

/-- Positive denominator of the score: `twc`, or 1 when `twc = 0` (then
`mc = 0` and the score is 0 either way). -/
def sDen (s : ScoredTask) : Nat := max s.twc 1

/-- Filter `score > 0.3 || matchCount >= 2`, by cross-multiplication. -/
def keepScored (s : ScoredTask) : Bool :=
  decide (3 * sDen s < 10 * s.mc) || decide (2 ≤ s.mc)

/-- Sort order `b.score - a.score || b.matchCount - a.matchCount`:
descending score, then descending matchCount, ties in original order. -/
def rScore (a b : ScoredTask) : Prop :=
  b.mc * sDen a < a.mc * sDen b ∨ (a.mc * sDen b = b.mc * sDen a ∧ b.mc ≤ a.mc)

instance : DecidableRel rScore := fun a b =>
  decidable_of_iff
    (b.mc * sDen a < a.mc * sDen b ∨ (a.mc * sDen b = b.mc * sDen a ∧ b.mc ≤ a.mc))
    Iff.rfl

/-- Scored, filtered and ranked tasks of the word-overlap stage. -/
def rankedScores (lower : List Char) (ts : List Task) : List ScoredTask :=
  List.insertionSort rScore ((ts.map (scoreTask (contentWords lower))).filter keepScored)

/-- Strategy 2 (lines 65-97): the decision on the ranked scores.  The
branch condition is `scored[0].score >= 0.6 && scored[0].score >
scored[1].score * 1.2` in exact arithmetic. -/
def overlapStage (lower : List Char) (ts : List Task) : MatchResult :=
  match rankedScores lower ts with
  | [] => ⟨none, []⟩
  | [s] => ⟨some s.task, []⟩
  | s0 :: s1 :: rest =>
    if decide (3 * sDen s0 ≤ 5 * s0.mc) &&
        decide (6 * s1.mc * sDen s0 < 5 * s0.mc * sDen s1) then
      ⟨some s0.task, []⟩
    else ⟨none, ((s0 :: s1 :: rest).take 5).map (fun s => s.task)⟩

def strategyStages (lower : List Char) (ts : List Task) : MatchResult :=
  match substringStage lower ts with
  | some t => ⟨some t, []⟩
  | none => overlapStage lower ts

/-- findTaskInMessage (lines 40-98). -/
def findTaskInMessage (message : String) (allTasks : List Task) : MatchResult :=
  if allTasks.isEmpty then ⟨none, []⟩
  else
    let lower := lowerStr message
    match firstQuoted message.toList with
    | some qraw =>
      let q := lowerChars qraw
      match allTasks.find? (fun t => lowerStr t.title == q) with
      | some ex => ⟨some ex, []⟩
      | none =>
        match allTasks.filter (fun t =>
            chContains q (lowerStr t.title) || chContains (lowerStr t.title) q) with
        | [t] => ⟨some t, []⟩
        | [] => strategyStages lower allTasks
        | ts => ⟨none, ts.take 5⟩
    | none => strategyStages lower allTasks

/-- True when the quoted-substring rule decides the message: a quoted
fragment exists and yields an exact title match or at least one partial
match (otherwise the code falls through to the substring/overlap stages). -/
def quoteDecides (message : String) (allTasks : List Task) : Bool :=
  match firstQuoted message.toList with
  | none => false
  | some qraw =>
    let q := lowerChars qraw
    allTasks.any (fun t => lowerStr t.title == q) ||
      !(allTasks.filter (fun t =>
        chContains q (lowerStr t.title) || chContains (lowerStr t.title) q)).isEmpty

/-- Score as an exact rational number, `matchCount / titleWordCount`. -/
def scoreQ (s : ScoredTask) : ℚ := (s.mc : ℚ) / (sDen s : ℚ)

/-- Ranking order stated over exact rational scores. -/
def rScoreQ (a b : ScoredTask) : Prop :=
  scoreQ b < scoreQ a ∨ (scoreQ a = scoreQ b ∧ b.mc ≤ a.mc)

/-- Concrete tasks of the C6 example. -/
def taskFixLoginBug : Task :=
  ⟨"t1", "Fix login bug", "", .medium, none, [], "t0", none, .todo⟩

def taskFixLogin : Task :=
  ⟨"t2", "Fix login", "", .medium, none, [], "t0", none, .todo⟩

/-- Concrete tasks witnessing the ambiguous branch of the overlap stage. -/
def taskAlphaBeta : Task :=
  ⟨"t3", "alpha beta", "", .medium, none, [], "t0", none, .todo⟩

def taskAlphaGamma : Task :=
  ⟨"t4", "alpha gamma", "", .medium, none, [], "t0", none, .todo⟩

/-! ## Date phrase resolver (Chatbot.tsx, parseNaturalDate)

Calendar days are modelled as integer day indices (days since the Unix
epoch, which fell on a Thursday), so `setDate(getDate() + n)` is `+ n`,
`getDay()` is `dayOfWeek`, and `toISOString().slice(0, 10)` of a midnight
date is the identity on the day index.  Two pieces of Date-library
behaviour stay external and are passed as parameters: the `setMonth`
calendar arithmetic of the next-month branch (`addMonths`) and the direct
`new Date(text)` parse of arbitrary text (`directParse`, returning the day
index and the full year of the parsed date, or `none` when invalid). -/

/-- getDay() of a day index: 0 = Sunday, ..., 6 = Saturday. -/
def dayOfWeek (d : Int) : Int := (d + 4) % 7

/-- parseInt of a nonempty digit string. -/
def digitsToNat (l : List Char) : Nat :=
  l.foldl (fun acc c => acc * 10 + (c.toNat - 48)) 0

/-- Leftmost regex search: try the anchored match `attempt` at every
position, left to right. -/
def searchAt {α : Type} (attempt : List Char → Option α) : List Char → Option α
  | [] => attempt []
  | c :: rest =>
    match attempt (c :: rest) with
    | some a => some a
    | none => searchAt attempt rest

/-- Anchored match of `in\s+(\d+)\s+` followed by the literal `unit`,
returning the captured number. -/
def inUnitAt (unit : List Char) (l : List Char) : Option Nat :=
  match l with
  | 'i' :: 'n' :: r =>
    let w1 := r.takeWhile isWsChar
    if w1.isEmpty then none
    else
      let r2 := r.drop w1.length
      let ds := r2.takeWhile Char.isDigit
      if ds.isEmpty then none
      else
        let r3 := r2.drop ds.length
        let w2 := r3.takeWhile isWsChar
        if w2.isEmpty then none
        else if chPrefix unit (r3.drop w2.length) then some (digitsToNat ds)
        else none
  | _ => none

/-- `lower.match(/in\s+(\d+)\s+day/)`, capture as a number. -/
def findInDays (l : List Char) : Option Nat :=
  searchAt (inUnitAt "day".toList) l

/-- `lower.match(/in\s+(\d+)\s+week/)`, capture as a number. -/
def findInWeeks (l : List Char) : Option Nat :=
  searchAt (inUnitAt "week".toList) l

/-- Weekday name at this position, tried in the alternation order of the
regex (monday first), returning its `dayNames.indexOf` value (sunday 0). -/
def dayNameAt (l : List Char) : Option Nat :=
  if chPrefix "monday".toList l then some 1
  else if chPrefix "tuesday".toList l then some 2
  else if chPrefix "wednesday".toList l then some 3
  else if chPrefix "thursday".toList l then some 4
  else if chPrefix "friday".toList l then some 5
  else if chPrefix "saturday".toList l then some 6
  else if chPrefix "sunday".toList l then some 0
  else none

/-- Anchored match of `(next\s+)?(monday|...|sunday)`. -/
def weekdayAt (l : List Char) : Option Nat :=
  match (if chPrefix "next".toList l then
      (let r := l.drop 4
       let w := r.takeWhile isWsChar
       if w.isEmpty then none else dayNameAt (r.drop w.length))
    else none) with
  | some t => some t
  | none => dayNameAt l

/-- `lower.match(/(next\s+)?(monday|tuesday|...|sunday)/)`, second capture
as a `dayNames` index. -/
def findWeekday (l : List Char) : Option Nat := searchAt weekdayAt l

/-- The phrase form recognised by `parseNaturalDate`, before any date
arithmetic. -/
inductive DateIntent where
  | today
  | tomorrow
  | nextWeek
  | nextMonth
  | inDays (n : Nat)
  | inWeeks (n : Nat)
  | weekday (target : Nat)
deriving DecidableEq

/-- The string-only classification of `parseNaturalDate`, in source order;
`none` falls through to the direct `new Date(text)` parse. -/
def dateIntentOf (lower : List Char) : Option DateIntent :=
  if lower == "today".toList || lower == "end of day".toList
      || lower == "eod".toList then some .today
  else if lower == "tomorrow".toList || lower == "tmr".toList
      || lower == "tmrw".toList then some .tomorrow
  else if lower == "next week".toList then some .nextWeek
  else if lower == "next month".toList then some .nextMonth
  else
    match findInDays lower with
    | some n => some (.inDays n)
    | none =>
      match findInWeeks lower with
      | some n => some (.inWeeks n)
      | none =>
        match findWeekday lower with
        | some t => some (.weekday t)
        | none => none

/-- The date arithmetic each branch performs on the current day index. -/
def applyDateIntent (addMonths : Int → Int → Int) (today : Int) :
    DateIntent → Int
  | .today => today
  | .tomorrow => today + 1
  | .nextWeek => today + 7
  | .nextMonth => addMonths today 1
  | .inDays n => today + n
  | .inWeeks n => today + 7 * n
  | .weekday target =>
    let currentDay := dayOfWeek today
    let daysUntil : Int := (target : Int) - currentDay
    today + (if daysUntil ≤ 0 then daysUntil + 7 else daysUntil)

/-- parseNaturalDate on a character list, returning the resolved day
index. -/
def parseNaturalDateL (directParse : List Char → Option (Int × Int))
    (addMonths : Int → Int → Int) (text : List Char) (today : Int) :
    Option Int :=
  let lower := trimChars (lowerChars text)
  match dateIntentOf lower with
  | some i => some (applyDateIntent addMonths today i)
  | none =>
    match directParse lower with
    | some (d, y) => if 2000 < y then some d else none
    | none => none

/-- parseNaturalDate on a string argument. -/
def parseNaturalDate (directParse : List Char → Option (Int × Int))
    (addMonths : Int → Int → Int) (text : String) (today : Int) :
    Option Int :=
  parseNaturalDateL directParse addMonths text.toList today

/-! ## Message processor (Chatbot.tsx, processMessage)

The regular expressions of the create-task pipeline are embedded as
executable scanners on `List Char`.  The regex `\b` is the JavaScript word
boundary (word characters are alphanumerics and underscore); `\s+` and
`\s*` before a capture are implemented with explicit backtracking (all
whitespace counts tried greedily, longest first); the boundary
alternations after a lazy capture contain no leading-whitespace
alternatives, so their inner `\s+` needs no backtracking and is a plain
test.  The dot of a lazy capture `(.+?)` does not match line
terminators. -/

def isWordChar (c : Char) : Bool := c.isAlphanum || c == '_'

/-- The `\b` after a keyword: the next character, if any, is a non-word
character. -/
def nonWordNext : List Char → Bool
  | [] => true
  | c :: _ => !isWordChar c

/-- Case-insensitive literal keyword followed by `\b`. -/
def litWB (w : List Char) (l : List Char) : Bool :=
  chPrefixCI w l && nonWordNext (l.drop w.length)

/-- `a[\s-]?b\b` (or `a\s?b\b` when `dash` is false): the two word parts
with an optional single separator character between them. -/
def optSepWB (a b : List Char) (dash : Bool) (l : List Char) : Bool :=
  chPrefixCI a l &&
    (let r := l.drop a.length
     litWB b r ||
       (match r with
        | c :: r2 => (isWsChar c || (dash && c == '-')) && litWB b r2
        | [] => false))

/-- `in\s+(?:columns)\b`, with `cols` the inner column alternation carrying
its own trailing boundary. -/
def inColWB (cols : List Char → Bool) (l : List Char) : Bool :=
  chPrefixCI "in".toList l &&
    (let r := l.drop 2
     let w := r.takeWhile isWsChar
     !w.isEmpty && cols (r.drop w.length))

/-- `todo|to\s?do|in\s?progress|doing|done` (calledMatch and colonMatch). -/
def colsNarrow (l : List Char) : Bool :=
  litWB "todo".toList l || optSepWB "to".toList "do".toList false l ||
  optSepWB "in".toList "progress".toList false l || litWB "doing".toList l ||
  litWB "done".toList l

/-- `todo|to\s?do|in[\s-]?progress|doing|done|completed` (taskMatch). -/
def colsTask (l : List Char) : Bool :=
  litWB "todo".toList l || optSepWB "to".toList "do".toList false l ||
  optSepWB "in".toList "progress".toList true l || litWB "doing".toList l ||
  litWB "done".toList l || litWB "completed".toList l

/-- `todo|to\s?do|in[\s-]?progress|doing|done` (directMatch, due date,
tags and title cleanup). -/
def colsDash (l : List Char) : Bool :=
  litWB "todo".toList l || optSepWB "to".toList "do".toList false l ||
  optSepWB "in".toList "progress".toList true l || litWB "doing".toList l ||
  litWB "done".toList l

/-- `with|priority|due|by|tags?|tagged|in\s+(?:cols)|description|desc`,
each alternative closed by `\b`. -/
def titleKwAlts (cols : List Char → Bool) (l : List Char) : Bool :=
  litWB "with".toList l || litWB "priority".toList l || litWB "due".toList l ||
  litWB "by".toList l || litWB "tags".toList l || litWB "tag".toList l ||
  litWB "tagged".toList l || inColWB cols l || litWB "description".toList l ||
  litWB "desc".toList l

/-- The due-date boundary keywords (no `due|by`). -/
def dueKwAlts (l : List Char) : Bool :=
  litWB "with".toList l || litWB "priority".toList l || litWB "tags".toList l ||
  litWB "tag".toList l || litWB "tagged".toList l || inColWB colsDash l ||
  litWB "description".toList l || litWB "desc".toList l

/-- The tags boundary keywords (no `tags?|tagged`). -/
def tagsKwAlts (l : List Char) : Bool :=
  litWB "with".toList l || litWB "priority".toList l || litWB "due".toList l ||
  litWB "by".toList l || inColWB colsDash l || litWB "description".toList l ||
  litWB "desc".toList l

/-- `\s+` then a keyword alternation: the boundary that ends a lazy
capture.  The keywords start with non-whitespace, so the whitespace run is
consumed whole. -/
def kwBoundary (alts : List Char → Bool) (l : List Char) : Bool :=
  let w := l.takeWhile isWsChar
  !w.isEmpty && alts (l.drop w.length)

def bndCalled (l : List Char) : Bool := kwBoundary (titleKwAlts colsNarrow) l

def bndTask (l : List Char) : Bool := kwBoundary (titleKwAlts colsTask) l

def bndDirect (l : List Char) : Bool := kwBoundary (titleKwAlts colsDash) l

def bndDue (l : List Char) : Bool := kwBoundary dueKwAlts l

def bndTags (l : List Char) : Bool := kwBoundary tagsKwAlts l

/-- Continuation of a lazy capture `(.+?)(?:B|$)` after at least one
character is taken: stop as soon as the boundary `bnd` matches or the end
is reached; fail on a line terminator (the dot does not match it). -/
def capLazyAux (bnd : List Char → Bool) (acc : List Char) :
    List Char → Option (List Char)
  | [] => some acc.reverse
  | c :: rest =>
    if bnd (c :: rest) then some acc.reverse
    else if isNlChar c then none
    else capLazyAux bnd (c :: acc) rest

/-- Lazy capture `(.+?)(?:B|$)`: at least one character, extended until
the boundary or the end of the string. -/
def capLazy (bnd : List Char → Bool) : List Char → Option (List Char)
  | [] => none
  | c :: rest => if isNlChar c then none else capLazyAux bnd [c] rest

/-- Greedy `\s+` with backtracking before a continuation: at least one
whitespace character, longest run tried first. -/
def wsPlusThen {α : Type} (k : List Char → Option α) (l : List Char) :
    Option α :=
  let r := l.takeWhile isWsChar
  if r.isEmpty then none
  else (List.range r.length).findSome? (fun i => k (l.drop (r.length - i)))

/-- Greedy `\s*` with backtracking before a continuation. -/
def wsStarThen {α : Type} (k : List Char → Option α) (l : List Char) :
    Option α :=
  let r := l.takeWhile isWsChar
  (List.range (r.length + 1)).findSome? (fun i => k (l.drop (r.length - i)))

/-- Optional colon `:?` (greedy) before a continuation. -/
def optColonThen (k : List Char → Option (List Char)) :
    List Char → Option (List Char)
  | [] => k []
  | c :: r =>
    if c == ':' then
      match k r with
      | some x => some x
      | none => k (c :: r)
    else k (c :: r)

/-- Anchored `(?:w1|w2|...)\s+(.+?)(?:B|$)` with boundary `bnd`; the word
alternatives have pairwise distinct first letters, so the alternation
order is the list order. -/
def wordCapWs (ws : List (List Char)) (bnd : List Char → Bool)
    (l : List Char) : Option (List Char) :=
  ws.findSome? (fun w =>
    if chPrefixCI w l then wsPlusThen (capLazy bnd) (l.drop w.length)
    else none)

/-- Anchored `(?:task|item|card)\s*:\s*(.+?)(?:B|$)`.  The `\s*` before
the colon consumes the whole whitespace run (a shorter run leaves a
whitespace character where the colon is required). -/
def colonCapAt (bnd : List Char → Bool) (l : List Char) :
    Option (List Char) :=
  ["task".toList, "item".toList, "card".toList].findSome? (fun w =>
    if chPrefixCI w l then
      (let r := l.drop w.length
       match r.drop (r.takeWhile isWsChar).length with
       | c :: r3 => if c == ':' then wsStarThen (capLazy bnd) r3 else none
       | [] => none)
    else none)

/-- Optional `[\s-]?` separator (greedy) before a continuation. -/
def sepOptThen (k : List Char → Option (List Char)) :
    List Char → Option (List Char)
  | [] => k []
  | c :: r =>
    if isWsChar c || c == '-' then
      match k r with
      | some x => some x
      | none => k (c :: r)
    else k (c :: r)

/-- Optional article `(?:a\s+|an\s+)?` before a continuation, alternatives
in regex order. -/
def articleOpt (k : List Char → Option (List Char)) (l : List Char) :
    Option (List Char) :=
  match (if chPrefixCI "a".toList l then wsPlusThen k (l.drop 1) else none) with
  | some x => some x
  | none =>
    match (if chPrefixCI "an".toList l then wsPlusThen k (l.drop 2)
      else none) with
    | some x => some x
    | none => k l

/-- Optional priority marker `(?:(?:high|medium|low)[\s-]?(?:priority\s+)?)?`
before a continuation. -/
def prioWordThen (k : List Char → Option (List Char)) (l : List Char) :
    Option (List Char) :=
  match ["high".toList, "medium".toList, "low".toList].findSome? (fun w =>
      if chPrefixCI w l then
        sepOptThen (fun r2 =>
          match (if chPrefixCI "priority".toList r2 then
              wsPlusThen k (r2.drop 8) else none) with
          | some x => some x
          | none => k r2) (l.drop w.length)
      else none) with
  | some x => some x
  | none => k l

/-- The anchored direct-title regex
`^(?:create|add|make|new)\s+(?:a\s+|an\s+)?(?:(?:high|medium|low)[\s-]?(?:priority\s+)?)?(.+?)(?:B|$)`. -/
def directCapAt (l : List Char) : Option (List Char) :=
  ["create".toList, "add".toList, "make".toList, "new".toList].findSome?
    (fun v =>
      if chPrefixCI v l then
        wsPlusThen (articleOpt (prioWordThen (capLazy bndDirect)))
          (l.drop v.length)
      else none)

/-- The tags clause `(?:tags?|tagged|labels?)\s*:?\s*(.+?)(?:B|$)`: the
optional-letter alternatives expanded in greedy regex order, so "tag" is
preferred over "tagged" at the same position, as in the source. -/
def tagsCapAt (l : List Char) : Option (List Char) :=
  ["tags".toList, "tag".toList, "tagged".toList, "labels".toList,
    "label".toList].findSome? (fun w =>
    if chPrefixCI w l then
      wsStarThen (optColonThen (wsStarThen (capLazy bndTags)))
        (l.drop w.length)
    else none)

/-- The description clause `(?:description|desc|details)\s*:?\s*(.+?)$`:
the capture runs to the end of the string (no boundary alternative). -/
def descCapAt (l : List Char) : Option (List Char) :=
  ["description".toList, "desc".toList, "details".toList].findSome? (fun w =>
    if chPrefixCI w l then
      wsStarThen (optColonThen (wsStarThen (capLazy (fun _ => false))))
        (l.drop w.length)
    else none)

/-- `replace(/^(w1|w2|...)\s+/i, ..)`: strip a leading word with required
whitespace after it. -/
def stripLeadWordWs (ws : List (List Char)) (l : List Char) : List Char :=
  match ws.findSome? (fun w =>
      if chPrefixCI w l then
        (let r := l.drop w.length
         let s := r.takeWhile isWsChar
         if s.isEmpty then none else some (r.drop s.length))
      else none) with
  | some r => r
  | none => l

/-- `replace(/^(task|item|card)\s*/i, ..)`: strip a leading word and any
whitespace after it (the word alone suffices). -/
def stripLeadWordWsStar (ws : List (List Char)) (l : List Char) : List Char :=
  match ws.findSome? (fun w =>
      if chPrefixCI w l then some (l.drop w.length) else none) with
  | some r => r.drop (r.takeWhile isWsChar).length
  | none => l

/-- Title cleanup `replace(/\s+(keywords)\b.*$/i, ..)`: truncate at the
leftmost whitespace run followed by a boundary keyword.  The `.*$` tail
consumes the rest; titles contain no line terminators here, so it always
reaches the end. -/
def cleanTrailing : List Char → List Char
  | [] => []
  | c :: rest => if bndDirect (c :: rest) then [] else c :: cleanTrailing rest

/-- `replace(/^["\x7b""\x7d]|["\x7b""\x7d]$/g, ..)` with the two quote
characters: drop one leading and one trailing quote character. -/
def stripEdgeQuotes (l : List Char) : List Char :=
  let l1 := match l with
    | c :: r => if isQuoteChar c then r else l
    | [] => []
  match l1.reverse with
  | c :: r => if isQuoteChar c then r.reverse else l1
  | [] => l1

def isSepCh (c : Char) : Bool := c == ',' || c == ';' || c == '&'

/-- Split at single separator characters.  The source splits at runs
`[,;&]+`; a run here yields extra empty fragments, all removed by the
length filter of `splitTagList`, so the filtered results agree. -/
def splitSepsAux (acc : List Char) : List Char → List (List Char)
  | [] => [acc.reverse]
  | c :: rest =>
    if isSepCh c then acc.reverse :: splitSepsAux [] rest
    else splitSepsAux (c :: acc) rest

/-- `split(/[,;&]+/).map(t => t.trim().toLowerCase()).filter(t =>
t.length > 0 && t !== "and")`. -/
def splitTagList (l : List Char) : List (List Char) :=
  ((splitSepsAux [] l).map (fun t => lowerChars (trimChars t))).filter
    (fun t => !t.isEmpty && t != "and".toList)

/-- One preamble word followed by `\s+` (greedy; the next pattern piece
never starts with whitespace). -/
def wordThenWs (w : List Char) (l : List Char) : Option (List Char) :=
  if chPrefixCI w l then
    (let r := l.drop w.length
     let s := r.takeWhile isWsChar
     if s.isEmpty then none else some (r.drop s.length))
  else none

def wordsThenWs : List (List Char) → List Char → Option (List Char)
  | [], l => some l
  | w :: ws, l =>
    match wordThenWs w l with
    | some r => wordsThenWs ws r
    | none => none

/-- The preamble alternation of `normalizeMessage`, in source order; each
alternative is a word sequence with `\s+` after every word. -/
def preambleForms : List (List (List Char)) :=
  [["please".toList],
   ["can".toList, "you".toList],
   ["could".toList, "you".toList],
   ["would".toList, "you".toList],
   ["i".toList, "want".toList, "to".toList],
   [['i', sqChar, 'd'], "like".toList, "to".toList],
   ["i".toList, "need".toList, "to".toList],
   ["i".toList, "want".toList, "you".toList, "to".toList]]

def stripPreamble (l : List Char) : List Char :=
  match preambleForms.findSome? (fun ws => wordsThenWs ws l) with
  | some r => r
  | none => l

/-- `replace(/\?+$/, ..)`. -/
def dropTrailingQs (l : List Char) : List Char :=
  (l.reverse.dropWhile (fun c => c == '?')).reverse

/-- normalizeMessage: strip the politeness preamble, trailing question
marks, then trim. -/
def normalizeMessage (msg : String) : List Char :=
  trimChars (dropTrailingQs (stripPreamble msg.toList))

/-- `^word\s`: the word prefix followed by one whitespace character. -/
def startsWordWs (w : List Char) (l : List Char) : Bool :=
  chPrefixCI w l &&
    (match l.drop w.length with
     | c :: _ => isWsChar c
     | [] => false)

def tagsWordWB (l : List Char) : Bool :=
  litWB "tags".toList l || litWB "tag".toList l

/-- `^verb\s+(a\s+)?tags?\b`: verb, whitespace, optional article, the tag
keyword.  The optional `a\s+` is a disjunction (keywords start with a
non-whitespace letter, so the whitespace runs are forced). -/
def tagGuardCore (verb : List Char) (l : List Char) : Bool :=
  chPrefixCI verb l &&
    (let r := l.drop verb.length
     let w := r.takeWhile isWsChar
     !w.isEmpty &&
       (let p := r.drop w.length
        tagsWordWB p ||
          (chPrefixCI "a".toList p &&
            (let r2 := p.drop 1
             let w2 := r2.takeWhile isWsChar
             !w2.isEmpty && tagsWordWB (r2.drop w2.length)))))

/-- Guard of the add-tags branch: `^add\s+(a\s+)?tags?\b` or `^tag\s`. -/
def tagAddGuard (l : List Char) : Bool :=
  tagGuardCore "add".toList l || startsWordWs "tag".toList l

/-- Guard of the remove-tags branch: `^remove\s+(a\s+)?tags?\b` or
`^untag\s`. -/
def tagRemoveGuard (l : List Char) : Bool :=
  tagGuardCore "remove".toList l || startsWordWs "untag".toList l

/-- Guard of the create branch: `^(create|add|make|new)\s`, or
`^(create|add)\s*$`, or the exact message "new task". -/
def createGuard (l : List Char) : Bool :=
  startsWordWs "create".toList l || startsWordWs "add".toList l ||
  startsWordWs "make".toList l || startsWordWs "new".toList l ||
  (chPrefixCI "create".toList l && (l.drop 6).all isWsChar) ||
  (chPrefixCI "add".toList l && (l.drop 3).all isWsChar) ||
  l == "new task".toList

/-- The question guard inside the create branch:
`^(how|what|when|where|why|can i)\s`. -/
def questionGuard (l : List Char) : Bool :=
  startsWordWs "how".toList l || startsWordWs "what".toList l ||
  startsWordWs "when".toList l || startsWordWs "where".toList l ||
  startsWordWs "why".toList l || startsWordWs "can i".toList l

/-- Scan for `\bALT\b` where the alternatives carry their own trailing
boundary: the flag records whether the previous character was a word
character (the alternatives start with word characters, so the leading
`\b` is exactly that test). -/
def hasWBWordAux (alts : List Char → Bool) : Bool → List Char → Bool
  | _, [] => false
  | prevW, c :: rest =>
    (!prevW && alts (c :: rest)) || hasWBWordAux alts (isWordChar c) rest

def hasWBWord (alts : List Char → Bool) (l : List Char) : Bool :=
  hasWBWordAux alts false l

def prioHighAlts (l : List Char) : Bool :=
  litWB "high".toList l || litWB "urgent".toList l ||
  litWB "critical".toList l || litWB "important".toList l

def prioMedAlts (l : List Char) : Bool :=
  litWB "medium".toList l || litWB "normal".toList l ||
  litWB "moderate".toList l || litWB "med".toList l

def prioLowAlts (l : List Char) : Bool :=
  litWB "low".toList l || litWB "minor".toList l || litWB "trivial".toList l

/-- parsePriorityRef: the three word-boundary regexes, in source order. -/
def parsePriorityRef (l : List Char) : Option Priority :=
  if hasWBWord prioHighAlts l then some .high
  else if hasWBWord prioMedAlts l then some .medium
  else if hasWBWord prioLowAlts l then some .low
  else none

def colTodoAlts (l : List Char) : Bool :=
  optSepWB "to".toList "do".toList true l || litWB "todo".toList l ||
  litWB "backlog".toList l

def colProgAlts (l : List Char) : Bool :=
  optSepWB "in".toList "progress".toList true l || litWB "doing".toList l ||
  litWB "working".toList l || litWB "active".toList l ||
  litWB "started".toList l || litWB "wip".toList l

def colDoneAlts (l : List Char) : Bool :=
  litWB "done".toList l || litWB "completed".toList l ||
  litWB "complete".toList l || litWB "finished".toList l ||
  litWB "finish".toList l

/-- parseColumnRef: the three word-boundary regexes, in source order. -/
def parseColumnRef (l : List Char) : Option ColumnId :=
  if hasWBWord colTodoAlts l then some .todo
  else if hasWBWord colProgAlts l then some .inProgress
  else if hasWBWord colDoneAlts l then some .done
  else none

/-- ChatBotAction.  The chatbot works on character lists; the due date is
the resolved day index of the date model. -/
inductive ChatBotAction where
  | create (columnId : ColumnId) (title description : List Char)
      (priority : Priority) (dueDate : Option Int) (tags : List (List Char))
  | update (taskId : String) (updates : TaskUpdates)
  | delete (taskId : String)
  | move (taskId : String) (sourceCol destCol : ColumnId)
deriving DecidableEq

/-- ChatResponse: reply text and optional board action. -/
structure ChatResponse where
  text : List Char
  action : Option ChatBotAction
deriving DecidableEq

/-- COLUMN_NAMES. -/
def colName : ColumnId → List Char
  | .todo => "To Do".toList
  | .inProgress => "In Progress".toList
  | .done => "Done".toList

def prioName : Priority → List Char
  | .high => "high".toList
  | .medium => "medium".toList
  | .low => "low".toList

/-- PRIORITY_EMOJI. -/
def prioEmoji : Priority → List Char
  | .high => "🔴".toList
  | .medium => "🟡".toList
  | .low => "🟢".toList

/-- `parts.join("\n")`. -/
def joinNL : List (List Char) → List Char
  | [] => []
  | [p] => p
  | p :: q :: rest => p ++ '\n' :: joinNL (q :: rest)

/-- Tag list rendered in backticks, joined with ", ". -/
def joinCommaTicks : List (List Char) → List Char
  | [] => []
  | [t] => "`".toList ++ t ++ "`".toList
  | t :: u :: rest => "`".toList ++ t ++ "`, ".toList ++ joinCommaTicks (u :: rest)

/-- The confirmation text of a created task; `showDay` renders a resolved
day index the way the source prints the due-date string. -/
def createReply (showDay : Int → List Char) (title description : List Char)
    (priority : Priority) (column : ColumnId) (dueDate : Option Int)
    (tags : List (List Char)) : List Char :=
  joinNL
    (["✅ **Task created!**\n".toList,
      "📋 **".toList ++ title ++ "**".toList] ++
     (if description.isEmpty then [] else ["📝 ".toList ++ description]) ++
     [prioEmoji priority ++ " Priority: **".toList ++ prioName priority ++
        "**".toList,
      "📂 Column: **".toList ++ colName column ++ "**".toList] ++
     (match dueDate with
      | some d => ["📅 Due: **".toList ++ showDay d ++ "**".toList]
      | none => []) ++
     (if tags.isEmpty then []
      else ["🏷️ Tags: ".toList ++ joinCommaTicks tags]))

/-- The help reply when no title pattern matched. -/
def noTitleHelp : List Char :=
  "I".toList ++ [sqChar] ++
  "d be happy to create a task! Please provide a title. Here are some examples:\n\n• **\"Create task: Fix the login bug\"**\n• **\"Add a task called Review PR\"**\n• **\"Create a high priority task ".toList ++
  [sqChar] ++ "Deploy v2".toList ++ [sqChar] ++
  " due tomorrow\"**\n• **\"New task Design homepage with tags design, ui\"**\n• **\"Add task Set up CI/CD in progress\"**".toList

/-- The reply when the cleaned title came out empty. -/
def noTitleRetry : List Char :=
  "I couldn".toList ++ [sqChar] ++
  "t determine the task title. Please try again with a clearer format, like:\n\n• **\"Create task: Fix the login bug\"**".toList

/-- The create-task branch of processMessage: the title extraction chain
(quoted, called/titled/named, colon, task-keyword, direct verb), the
optional priority, column, due-date, tags and description clauses, and the
final title cleanup. -/
def createBranch (dp : List Char → Option (Int × Int))
    (addMonths : Int → Int → Int) (today : Int) (showDay : Int → List Char)
    (normalized lower : List Char) : ChatResponse :=
  let t1 : List Char :=
    match firstQuoted normalized with
    | some t => t
    | none => []
  let t2 : List Char :=
    if t1.isEmpty then
      match searchAt (wordCapWs
          ["called".toList, "titled".toList, "named".toList] bndCalled)
          normalized with
      | some t => trimChars t
      | none => []
    else t1
  let t3 : List Char :=
    if t2.isEmpty then
      match searchAt (colonCapAt bndCalled) normalized with
      | some t => trimChars t
      | none => []
    else t2
  let t4 : List Char :=
    if t3.isEmpty then
      match searchAt (wordCapWs
          ["task".toList, "item".toList, "card".toList] bndTask)
          normalized with
      | some t =>
        trimChars (stripLeadWordWs
          ["called".toList, "titled".toList, "named".toList]
          (stripLeadWordWs ["a".toList, "an".toList, "the".toList] t))
      | none => []
    else t3
  let t5 : List Char :=
    if t4.isEmpty then
      match directCapAt normalized with
      | some t =>
        let cand := trimChars (stripLeadWordWs
          ["called".toList, "titled".toList, "named".toList]
          (stripLeadWordWsStar
            ["task".toList, "item".toList, "card".toList] t))
        if !cand.isEmpty && lowerChars cand != "task".toList &&
            lowerChars cand != "a".toList && decide (1 < cand.length) then
          cand
        else []
      | none => []
    else t4
  if t5.isEmpty then ⟨noTitleHelp, none⟩
  else
    let priority := (parsePriorityRef lower).getD .medium
    let column := (parseColumnRef lower).getD .todo
    let dueDate : Option Int :=
      match searchAt (wordCapWs
          ["due".toList, "by".toList, "deadline".toList] bndDue) lower with
      | some cap => parseNaturalDateL dp addMonths (trimChars cap) today
      | none => none
    let tags : List (List Char) :=
      match searchAt tagsCapAt normalized with
      | some cap => splitTagList cap
      | none => []
    let description : List Char :=
      match searchAt descCapAt normalized with
      | some cap => trimChars cap
      | none => []
    let title := trimChars (stripEdgeQuotes (trimChars (cleanTrailing t5)))
    if title.isEmpty then ⟨noTitleRetry, none⟩
    else
      ⟨createReply showDay title description priority column dueDate tags,
        some (.create column title description priority dueDate tags)⟩

/-- processMessage.  The bodies of the two tag branches and everything
after the create branch (move, edit, delete and the read-only intents) are
outside this claim and passed as the response functions `tagAddResp`,
`tagRemoveResp` and `laterIntents` of the normalized message and the
board; the guards deciding which branch runs are embedded exactly. -/
def processMessage (dp : List Char → Option (Int × Int))
    (addMonths : Int → Int → Int) (today : Int) (showDay : Int → List Char)
    (tagAddResp tagRemoveResp laterIntents : List Char → Board → ChatResponse)
    (message : String) (board : Board) : ChatResponse :=
  let normalized := normalizeMessage message
  let lower := lowerChars normalized
  if tagAddGuard lower then tagAddResp normalized board
  else if tagRemoveGuard lower then tagRemoveResp normalized board
  else if createGuard lower then
    (if questionGuard lower then laterIntents normalized board
     else createBranch dp addMonths today showDay normalized lower)
  else laterIntents normalized board

end FlowBoard

/-! # Theorems -/

namespace FlowBoard

theorem alLookup_cons (p : String × StoredTask) (l : List (String × StoredTask)) (k : String) :
    alLookup (p :: l) k = if p.1 = k then some p.2 else alLookup l k := by
  simp only [alLookup, List.find?_cons]
  cases hb : p.1 == k
  · have hne : p.1 ≠ k := ne_of_beq_false hb
    simp [hne]
  · have heq : p.1 = k := eq_of_beq hb
    simp [heq]

theorem alLookup_alInsert (l : List (String × StoredTask)) (k : String) (v : StoredTask)
    (k' : String) :
    alLookup (alInsert l k v) k' = if k' = k then some v else alLookup l k' := by
  induction l with
  | nil =>
    by_cases h : k' = k
    · simp [alInsert, alLookup_cons, h]
    · simp [alInsert, alLookup_cons, h, Ne.symm h, alLookup]
  | cons p l ih =>
    by_cases hb : p.1 = k
    · have hbeq : (p.1 == k) = true := beq_iff_eq.mpr hb
      by_cases h : k' = k
      · simp [alInsert, hbeq, alLookup_cons, h]
      · have hkk' : ¬k = k' := fun hh => h hh.symm
        have hpk' : ¬p.1 = k' := fun hh => h (hh.symm.trans hb)
        simp [alInsert, hbeq, alLookup_cons, h, hkk', hpk']
    · have hbeq : (p.1 == k) = false := beq_eq_false_iff_ne.mpr hb
      by_cases hp : p.1 = k'
      · have hk'k : ¬k' = k := fun hh => hb (hp.trans hh)
        simp [alInsert, hbeq, alLookup_cons, hp, hk'k]
      · simp [alInsert, hbeq, alLookup_cons, hp, ih]

theorem alLookup_alRemove (l : List (String × StoredTask)) (k k' : String) :
    alLookup (alRemove l k) k' = if k' = k then none else alLookup l k' := by
  induction l with
  | nil => simp [alRemove, alLookup]
  | cons p l ih =>
    simp only [alRemove] at ih ⊢
    by_cases hb : p.1 = k
    · have hbeq : (p.1 == k) = true := beq_iff_eq.mpr hb
      by_cases h : k' = k
      · subst h
        simp [List.filter_cons, hbeq, ih]
      · have hpk' : ¬p.1 = k' := fun hh => h (hh.symm.trans hb)
        simp [List.filter_cons, hbeq, alLookup_cons, ih, h, hpk']
    · have hbeq : (p.1 == k) = false := beq_eq_false_iff_ne.mpr hb
      by_cases hp : p.1 = k'
      · have hk'k : ¬k' = k := fun hh => hb (hp.trans hh)
        simp [List.filter_cons, hbeq, alLookup_cons, hp, hk'k]
      · simp [List.filter_cons, hbeq, alLookup_cons, hp, ih]

theorem getCol_setColIds (b : Board) (c : ColumnId) (ids : List String) (c' : ColumnId) :
    getCol (setColIds b c ids) c' =
      if c' = c then ⟨(getCol b c).id, (getCol b c).title, ids⟩ else getCol b c' := by
  cases c <;> cases c' <;> simp [getCol, setColIds]

theorem getCol_setTasks (b : Board) (ts : List (String × StoredTask)) (c : ColumnId) :
    getCol { b with tasks := ts } c = getCol b c := by
  cases c <;> rfl

theorem tasks_setColIds (b : Board) (c : ColumnId) (ids : List String) :
    (setColIds b c ids).tasks = b.tasks := by
  cases c <;> rfl

theorem jsSpliceRemoveOne_mem (l : List String) (x : String) (h : x ∈ l) :
    jsSpliceRemoveOne l x = l.erase x := by
  unfold jsSpliceRemoveOne
  rw [if_pos]
  exact List.any_eq_true.mpr ⟨x, h, beq_self_eq_true x⟩

theorem jsSpliceIdx_le (i : Int) (len : Nat) : jsSpliceIdx i len ≤ len := by
  unfold jsSpliceIdx
  split
  · omega
  · exact min_le_right _ _

theorem count_jsSpliceInsert (i : Int) (x : String) (l : List String) (y : String) :
    (jsSpliceInsert i x l).count y = (x :: l).count y := by
  exact (List.perm_insertIdx x l (jsSpliceIdx_le i l.length)).count_eq y

/-- C3: moving an existing well-formed task sets `completedAt` to the fresh
timestamp exactly when the destination is the done column and `completedAt`
was absent, clears it exactly when the destination is not done, and keeps it
exactly when the destination is done and it was already set. -/
theorem move_completedAt (b : Board) (tid : String) (src dst : ColumnId) (i : Int)
    (now : String) (t : Task) (hlook : alLookup b.tasks tid = some (.real t))
    (hts : t.completedAt ≠ some "") :
    ∃ b', moveTask b tid src dst i now = some b' ∧
      ∃ t', alLookup b'.tasks tid = some (.real t') ∧
        (dst = .done ∧ t.completedAt = none → t'.completedAt = some now) ∧
        (dst ≠ .done → t'.completedAt = none) ∧
        (dst = .done ∧ t.completedAt ≠ none → t'.completedAt = t.completedAt) := by
  simp only [moveTask, hlook]
  refine ⟨_, rfl, ?_⟩
  refine ⟨{ t with
    columnId := dst
    completedAt :=
      if dst = .done then
        if jsFalsyCompleted (some t.completedAt) then some now else t.completedAt
      else none }, ?_, ?_, ?_, ?_⟩
  · simp [alLookup_alInsert]
  · rintro ⟨hdone, habs⟩
    simp [hdone, habs, jsFalsyCompleted]
  · intro hne
    simp [hne]
  · rintro ⟨hdone, hset⟩
    rcases hcomp : t.completedAt with - | s
    · exact absurd hcomp hset
    · have hsne : s ≠ "" := by
        intro hs
        exact hts (by rw [hcomp, hs])
      simp [hdone, hcomp, jsFalsyCompleted, hsne]

theorem move_completedAt_witness :
    (alLookup cxBoard.tasks "a" = some (.real (cxTask "a")) ∧
      (cxTask "a").completedAt ≠ some "") ∧
    (∃ b', moveTask cxBoard "a" .todo .done 0 "T1" = some b' ∧
      ∃ t', alLookup b'.tasks "a" = some (.real t') ∧
        (ColumnId.done = .done ∧ (cxTask "a").completedAt = none → t'.completedAt = some "T1") ∧
        (ColumnId.done ≠ .done → t'.completedAt = none) ∧
        (ColumnId.done = .done ∧ (cxTask "a").completedAt ≠ none →
          t'.completedAt = (cxTask "a").completedAt)) :=
  ⟨⟨by decide, by decide⟩,
    move_completedAt cxBoard "a" .todo .done 0 "T1" (cxTask "a") (by decide) (by decide)⟩

/-- C5 (amended): moving a task present in the source column removes its
first occurrence there and inserts it into the destination list at the
JavaScript splice position (`destIndex` clamped to the length when
non-negative, counted back from the end when negative, floored at 0); when
source equals destination the removal happens first and the index is
interpreted against the shortened list. -/
theorem move_splice (b : Board) (tid : String) (src dst : ColumnId) (i : Int)
    (now : String) (t : Task) (hlook : alLookup b.tasks tid = some (.real t))
    (hmem : tid ∈ (getCol b src).taskIds) :
    ∃ b', moveTask b tid src dst i now = some b' ∧
      (src = dst →
        (getCol b' dst).taskIds = jsSpliceInsert i tid ((getCol b src).taskIds.erase tid) ∧
        ∀ c : ColumnId, c ≠ dst → (getCol b' c).taskIds = (getCol b c).taskIds) ∧
      (src ≠ dst →
        (getCol b' src).taskIds = (getCol b src).taskIds.erase tid ∧
        (getCol b' dst).taskIds = jsSpliceInsert i tid (getCol b dst).taskIds ∧
        ∀ c : ColumnId, c ≠ src → c ≠ dst → (getCol b' c).taskIds = (getCol b c).taskIds) := by
  simp only [moveTask, hlook, jsSpliceRemoveOne_mem _ _ hmem]
  refine ⟨_, rfl, ?_, ?_⟩
  · intro hsd
    subst hsd
    constructor
    · rw [getCol_setTasks]
      simp [getCol_setColIds]
    · intro c hc
      rw [getCol_setTasks]
      simp [getCol_setColIds, hc]
  · intro hsd
    refine ⟨?_, ?_, ?_⟩
    · rw [getCol_setTasks]
      simp [getCol_setColIds, hsd, fun h : src = dst => hsd h]
    · rw [getCol_setTasks]
      simp [getCol_setColIds, hsd]
    · intro c hcs hcd
      rw [getCol_setTasks]
      simp [getCol_setColIds, hsd, hcs, hcd]

theorem move_splice_witness :
    (alLookup cxBoard.tasks "a" = some (.real (cxTask "a")) ∧
      "a" ∈ (getCol cxBoard .todo).taskIds) ∧
    (∃ b', moveTask cxBoard "a" .todo .todo (-1) "T1" = some b' ∧
      (ColumnId.todo = .todo →
        (getCol b' .todo).taskIds =
          jsSpliceInsert (-1) "a" ((getCol cxBoard .todo).taskIds.erase "a") ∧
        ∀ c : ColumnId, c ≠ .todo → (getCol b' c).taskIds = (getCol cxBoard c).taskIds) ∧
      (ColumnId.todo ≠ .todo →
        (getCol b' .todo).taskIds = (getCol cxBoard .todo).taskIds.erase "a" ∧
        (getCol b' .todo).taskIds = jsSpliceInsert (-1) "a" (getCol cxBoard .todo).taskIds ∧
        ∀ c : ColumnId, c ≠ .todo → c ≠ .todo →
          (getCol b' c).taskIds = (getCol cxBoard c).taskIds)) :=
  ⟨⟨by decide, by decide⟩,
    move_splice cxBoard "a" .todo .todo (-1) "T1" (cxTask "a") (by decide) (by decide)⟩

/-- C5 counterexample to the claim as stated: with the todo list
`["a", "b", "c"]`, moving "a" within todo at `destIndex = -1` yields
`["b", "a", "c"]` (splice counts a negative index from the end of the
shortened list), not the `["a", "b", "c"]` that clamping the index to the
insertion range `[0, length]` would give. -/
theorem move_splice_neg_counterexample :
    (moveTask cxBoard "a" .todo .todo (-1) "T1").map (fun b' => (getCol b' .todo).taskIds) =
      some ["b", "a", "c"] ∧
    clampInsertSpec (-1) "a" ((getCol cxBoard .todo).taskIds.erase "a") = ["a", "b", "c"] ∧
    (["b", "a", "c"] : List String) ≠ ["a", "b", "c"] := by
  refine ⟨by decide, by decide, by decide⟩

theorem count_filter_ne (l : List String) (x y : String) (h : y ≠ x) :
    (l.filter (fun i => !(i == x))).count y = l.count y := by
  induction l with
  | nil => rfl
  | cons a l ih =>
    by_cases ha : a = x
    · have : (a == x) = true := beq_iff_eq.mpr ha
      have hya : ¬y = a := fun hh => h (hh.trans ha)
      simp [List.filter_cons, this, ih, List.count_cons, hya]
    · have : (a == x) = false := beq_eq_false_iff_ne.mpr ha
      simp [List.filter_cons, this, List.count_cons, ih]

theorem count_filter_self (l : List String) (x : String) :
    (l.filter (fun i => !(i == x))).count x = 0 := by
  rw [List.count_eq_zero]
  intro hmem
  have := List.of_mem_filter hmem
  simp at this

theorem alLookup_mem (l : List (String × StoredTask)) (k : String) (st : StoredTask)
    (h : alLookup l k = some st) : ∃ q ∈ l, q.1 = k ∧ q.2 = st := by
  unfold alLookup at h
  cases hf : l.find? (fun p => p.1 == k) with
  | none => rw [hf] at h; cases h
  | some q =>
    rw [hf] at h
    obtain rfl := Option.some.inj h
    have hpred := List.find?_some hf
    exact ⟨q, List.mem_of_find?_eq_some hf, eq_of_beq hpred, rfl⟩

theorem getCol_setColIds_tasks (b : Board) (ts : List (String × StoredTask)) (c : ColumnId)
    (ids : List String) (c' : ColumnId) :
    getCol (setColIds { b with tasks := ts } c ids) c' =
      if c' = c then ⟨(getCol b c).id, (getCol b c).title, ids⟩ else getCol b c' := by
  rw [getCol_setColIds]
  by_cases h : c' = c
  · simp [h, getCol_setTasks]
  · simp [h, getCol_setTasks]

theorem getCol_setColIds₂ (b : Board) (c1 : ColumnId) (l1 : List String) (c2 : ColumnId)
    (l2 : List String) (c' : ColumnId) (hne : c1 ≠ c2) :
    getCol (setColIds (setColIds b c1 l1) c2 l2) c' =
      if c' = c2 then ⟨(getCol b c2).id, (getCol b c2).title, l2⟩
      else if c' = c1 then ⟨(getCol b c1).id, (getCol b c1).title, l1⟩
      else getCol b c' := by
  by_cases h2 : c' = c2 <;> by_cases h1 : c' = c1 <;>
    simp [getCol_setColIds, h1, h2, hne, Ne.symm hne]

theorem addTask_tasks (b : Board) (c : ColumnId) (title desc : String) (pr : Priority)
    (dd : Option String) (tg : List String) (id now : String) :
    (addTask b c title desc pr dd tg id now).tasks =
      alInsert b.tasks id (.real
        ⟨id, title, desc, pr, dd, tg, now, if c = .done then some now else none, c⟩) := by
  simp only [addTask]
  rw [tasks_setColIds]

theorem addTask_getCol (b : Board) (c : ColumnId) (title desc : String) (pr : Priority)
    (dd : Option String) (tg : List String) (id now : String) (c' : ColumnId) :
    getCol (addTask b c title desc pr dd tg id now) c' =
      if c' = c then ⟨(getCol b c).id, (getCol b c).title, (getCol b c).taskIds ++ [id]⟩
      else getCol b c' := by
  simp only [addTask]
  rw [getCol_setColIds_tasks]

theorem alLookup_real_of_all (l : List (String × StoredTask))
    (hall : ∀ q ∈ l, ∃ t : Task, q.2 = StoredTask.real t) (k : String) (st : StoredTask)
    (h : alLookup l k = some st) : ∃ t, st = StoredTask.real t := by
  obtain ⟨q, hq, -, rfl⟩ := alLookup_mem l k st h
  exact hall q hq

theorem strongInv_addTask (b : Board) (hInv : StrongInv b) (c : ColumnId)
    (title desc : String) (pr : Priority) (dd : Option String) (tg : List String)
    (id now : String) (hfresh : alLookup b.tasks id = none)
    (hfreshCols : ∀ col : ColumnId, id ∉ (getCol b col).taskIds) :
    StrongInv (addTask b c title desc pr dd tg id now) := by
  obtain ⟨hcol, hreal, hcount⟩ := hInv
  refine ⟨?_, ?_, ?_⟩
  · intro c'
    rw [addTask_getCol]
    by_cases h : c' = c
    · simp [h, hcol c]
    · rw [if_neg h]
      exact hcol c'
  · intro id' st h
    rw [addTask_tasks, alLookup_alInsert] at h
    by_cases hid : id' = id
    · rw [if_pos hid] at h
      exact ⟨_, (Option.some.inj h).symm⟩
    · rw [if_neg hid] at h
      exact hreal id' st h
  · intro id' t' h c'
    rw [addTask_tasks, alLookup_alInsert] at h
    rw [addTask_getCol]
    by_cases hid : id' = id
    · rw [if_pos hid] at h
      obtain rfl := StoredTask.real.inj (Option.some.inj h)
      subst hid
      by_cases hc' : c' = c
      · simp only [hc', if_pos]
        simp [List.count_append, List.count_eq_zero_of_not_mem (hfreshCols c)]
      · rw [if_neg hc']
        simp only [show (c' = c) = False from eq_false hc', if_false]
        exact List.count_eq_zero_of_not_mem (hfreshCols c')
    · rw [if_neg hid] at h
      have hcnt := hcount id' t' h
      by_cases hc' : c' = c
      · simp only [hc', if_pos]
        have hbeq : (id' == id) = false := beq_eq_false_iff_ne.mpr hid
        have hid' : ¬id = id' := fun hh => hid hh.symm
        simp [List.count_append, List.count_singleton, hbeq, hid', hcnt c]
      · rw [if_neg hc']
        exact hcnt c'

theorem strongInv_updateTask (b : Board) (hInv : StrongInv b) (tid : String)
    (u : TaskUpdates) (t0 : Task) (hlook : alLookup b.tasks tid = some (.real t0))
    (hcol : u.columnId = none ∨ u.columnId = some t0.columnId) :
    StrongInv (updateTask b tid u) := by
  obtain ⟨hc, hreal, hcount⟩ := hInv
  have hcid : (t0.applyUpdates u).columnId = t0.columnId := by
    rcases hcol with h | h <;> simp [Task.applyUpdates, h]
  refine ⟨?_, ?_, ?_⟩
  · intro c'
    exact hc c'
  · intro id st h
    have h' : alLookup (alInsert b.tasks tid (mergeStored (alLookup b.tasks tid) u)) id =
        some st := h
    rw [alLookup_alInsert] at h'
    by_cases hid : id = tid
    · rw [if_pos hid, hlook] at h'
      exact ⟨_, (Option.some.inj h').symm⟩
    · rw [if_neg hid] at h'
      exact hreal id st h'
  · intro id t' h c'
    have h' : alLookup (alInsert b.tasks tid (mergeStored (alLookup b.tasks tid) u)) id =
        some (.real t') := h
    rw [alLookup_alInsert] at h'
    have hcols : getCol (updateTask b tid u) c' = getCol b c' := by
      cases c' <;> rfl
    rw [hcols]
    by_cases hid : id = tid
    · rw [if_pos hid, hlook] at h'
      have ht' : t' = t0.applyUpdates u := by
        have := Option.some.inj h'
        simp only [mergeStored] at this
        exact (StoredTask.real.inj this).symm
      rw [ht', hcid, hid]
      exact hcount tid t0 hlook c'
    · rw [if_neg hid] at h'
      exact hcount id t' h' c'

theorem strongInv_deleteTask (b : Board) (hInv : StrongInv b) (tid : String) :
    ∃ b', deleteTask b tid = some b' ∧ StrongInv b' := by
  obtain ⟨hc, hreal, hcount⟩ := hInv
  unfold deleteTask
  cases hl : alLookup b.tasks tid with
  | none => exact ⟨b, rfl, hc, hreal, hcount⟩
  | some st =>
    obtain ⟨t, rfl⟩ := hreal tid st hl
    refine ⟨_, rfl, ?_, ?_, ?_⟩
    · intro c'
      rw [getCol_setColIds_tasks]
      by_cases h : c' = t.columnId
      · simp [h, hc t.columnId]
      · rw [if_neg h]
        exact hc c'
    · intro id st' h
      rw [tasks_setColIds, alLookup_alRemove] at h
      by_cases hid : id = tid
      · rw [if_pos hid] at h
        cases h
      · rw [if_neg hid] at h
        exact hreal id st' h
    · intro id t' h c'
      rw [tasks_setColIds, alLookup_alRemove] at h
      by_cases hid : id = tid
      · rw [if_pos hid] at h
        cases h
      · rw [if_neg hid] at h
        have hcnt := hcount id t' h
        rw [getCol_setColIds_tasks]
        by_cases hc' : c' = t.columnId
        · simp only [hc', if_pos]
          rw [count_filter_ne _ _ _ hid]
          exact hcnt t.columnId
        · rw [if_neg hc']
          exact hcnt c'

theorem strongInv_moveTask (b : Board) (hInv : StrongInv b) (tid : String)
    (src dst : ColumnId) (i : Int) (now : String) (t0 : Task)
    (hlook : alLookup b.tasks tid = some (.real t0)) (hsrc : t0.columnId = src) :
    ∃ b', moveTask b tid src dst i now = some b' ∧ StrongInv b' := by
  obtain ⟨hc, hreal, hcount⟩ := hInv
  have hcnt_src : ((getCol b src).taskIds).count tid = 1 := by
    have := hcount tid t0 hlook src
    rw [if_pos hsrc.symm] at this
    exact this
  have hmem : tid ∈ (getCol b src).taskIds := by
    by_contra hn
    rw [List.count_eq_zero_of_not_mem hn] at hcnt_src
    cases hcnt_src
  have hother : ∀ c : ColumnId, c ≠ src → ((getCol b c).taskIds).count tid = 0 := by
    intro c hcne
    have := hcount tid t0 hlook c
    rw [if_neg (fun h => hcne (h.trans hsrc))] at this
    exact this
  simp only [moveTask, hlook, jsSpliceRemoveOne_mem _ _ hmem]
  by_cases hsd : src = dst
  · simp only [if_pos hsd]
    subst hsd
    refine ⟨_, rfl, ?_, ?_, ?_⟩
    · intro c'
      rw [getCol_setTasks, getCol_setColIds]
      by_cases h1 : c' = src
      · simp [h1, hc src]
      · rw [if_neg h1]
        exact hc c'
    · intro id st h
      rw [alLookup_alInsert] at h
      by_cases hid : id = tid
      · rw [if_pos hid] at h
        exact ⟨_, (Option.some.inj h).symm⟩
      · rw [if_neg hid] at h
        exact hreal id st h
    · intro id t' h c'
      rw [alLookup_alInsert] at h
      rw [getCol_setTasks, getCol_setColIds]
      by_cases hid : id = tid
      · rw [if_pos hid] at h
        obtain rfl := StoredTask.real.inj (Option.some.inj h)
        subst hid
        by_cases h1 : c' = src
        · simp [h1, count_jsSpliceInsert, List.count_cons, List.count_erase_self,
            hcnt_src]
        · simp [h1, hother c' h1]
      · rw [if_neg hid] at h
        have hcnt := hcount id t' h
        have hbeq : (id == tid) = false := beq_eq_false_iff_ne.mpr hid
        have hid' : ¬tid = id := fun hh => hid hh.symm
        by_cases h1 : c' = src
        · simp [h1, count_jsSpliceInsert, List.count_cons, List.count_erase_of_ne hid,
            hbeq, hid', hcnt src]
        · simp [h1, hcnt c']
  · simp only [if_neg hsd]
    refine ⟨_, rfl, ?_, ?_, ?_⟩
    · intro c'
      rw [getCol_setTasks, getCol_setColIds₂ b src _ dst _ c' hsd]
      by_cases h2 : c' = dst
      · simp [h2, hc dst]
      · rw [if_neg h2]
        by_cases h1 : c' = src
        · simp [h1, hc src]
        · rw [if_neg h1]
          exact hc c'
    · intro id st h
      rw [alLookup_alInsert] at h
      by_cases hid : id = tid
      · rw [if_pos hid] at h
        exact ⟨_, (Option.some.inj h).symm⟩
      · rw [if_neg hid] at h
        exact hreal id st h
    · intro id t' h c'
      rw [alLookup_alInsert] at h
      rw [getCol_setTasks, getCol_setColIds₂ b src _ dst _ c' hsd]
      by_cases hid : id = tid
      · rw [if_pos hid] at h
        obtain rfl := StoredTask.real.inj (Option.some.inj h)
        subst hid
        by_cases h2 : c' = dst
        · simp [h2, count_jsSpliceInsert, List.count_cons,
            hother dst (fun hh => hsd hh.symm)]
        · rw [if_neg h2]
          by_cases h1 : c' = src
          · simp [h1, h2, hsd, List.count_erase_self, hcnt_src]
          · simp [h1, h2, hsd, hother c' h1]
      · rw [if_neg hid] at h
        have hcnt := hcount id t' h
        have hbeq : (id == tid) = false := beq_eq_false_iff_ne.mpr hid
        have hid' : ¬tid = id := fun hh => hid hh.symm
        by_cases h2 : c' = dst
        · simp [h2, count_jsSpliceInsert, List.count_cons, hbeq, hid', hcnt dst]
        · rw [if_neg h2]
          by_cases h1 : c' = src
          · simp [h1, List.count_erase_of_ne hid, hcnt src]
          · simp [h1, hcnt c']

theorem strongInv_seed (p : SeedParams) (hdist : DistinctIds p) :
    StrongInv (createDefaultBoard p) := by
  obtain ⟨h12, h13, h14, h15, h16, h23, h24, h25, h26, h34, h35, h36, h45, h46, h56⟩ := hdist
  have h21 := h12.symm
  have h31 := h13.symm
  have h41 := h14.symm
  have h51 := h15.symm
  have h61 := h16.symm
  have h32 := h23.symm
  have h42 := h24.symm
  have h52 := h25.symm
  have h62 := h26.symm
  have h43 := h34.symm
  have h53 := h35.symm
  have h63 := h36.symm
  have h54 := h45.symm
  have h64 := h46.symm
  have h65 := h56.symm
  refine ⟨?_, ?_, ?_⟩
  · intro c
    cases c <;> rfl
  · intro id st h
    refine alLookup_real_of_all _ ?_ id st h
    intro q hq
    simp only [createDefaultBoard, sampleTasks, List.map_cons, List.map_nil, List.mem_cons,
      List.not_mem_nil, or_false] at hq
    rcases hq with rfl | rfl | rfl | rfl | rfl | rfl <;> exact ⟨_, rfl⟩
  · intro id t h c
    obtain ⟨q, hq, hq1, hq2⟩ := alLookup_mem _ _ _ h
    simp only [createDefaultBoard, sampleTasks, List.map_cons, List.map_nil, List.mem_cons,
      List.not_mem_nil, or_false] at hq
    rcases hq with rfl | rfl | rfl | rfl | rfl | rfl <;>
      (obtain rfl := hq1.symm) <;>
      (obtain rfl := (StoredTask.real.inj hq2)) <;>
      cases c <;>
      simp [createDefaultBoard, sampleTasks, getCol, List.count_cons,
        h12, h13, h14, h15, h16, h21, h23, h24, h25, h26, h31, h32, h34, h35, h36,
        h41, h42, h43, h45, h46, h51, h52, h53, h54, h56, h61, h62, h63, h64, h65]

theorem strongInv_invClaim (b : Board) (h : StrongInv b) : InvClaim b := by
  obtain ⟨hc, hreal, hcount⟩ := h
  intro id hsome
  cases hl : alLookup b.tasks id with
  | none => rw [hl] at hsome; cases hsome
  | some st =>
    obtain ⟨t, rfl⟩ := hreal id st hl
    refine ⟨t, rfl, ?_, hc _, ?_⟩
    · have hone := hcount id t hl t.columnId
      rw [if_pos rfl] at hone
      by_contra hn
      rw [List.count_eq_zero_of_not_mem hn] at hone
      cases hone
    · intro c hmem
      by_contra hne
      have := hcount id t hl c
      rw [if_neg hne] at this
      exact (List.count_eq_zero.mp this) hmem

/-- C1: in every board reachable from the seed board by the four task
mutations with caller-supplied arguments, every task id present in the
tasks mapping appears in exactly one column task-id list, and that column
is the one named by the task record's `columnId` field. -/
theorem reachable_board_invariant (p : SeedParams) (hdist : DistinctIds p) (b : Board)
    (hreach : ReachableBoard p b) : InvClaim b := by
  suffices h : StrongInv b from strongInv_invClaim b h
  induction hreach with
  | seed => exact strongInv_seed p hdist
  | @step b0 b1 m hr hargs hmut ih =>
    cases m with
    | add c title desc pr dd tg id now =>
      obtain ⟨hfresh, hcols⟩ := hargs
      simp only [mutateBoard] at hmut
      obtain rfl := Option.some.inj hmut
      exact strongInv_addTask b0 ih c title desc pr dd tg id now hfresh hcols
    | update tid u =>
      obtain ⟨t0, hlook, hcol⟩ := hargs
      simp only [mutateBoard] at hmut
      obtain rfl := Option.some.inj hmut
      exact strongInv_updateTask b0 ih tid u t0 hlook hcol
    | del tid =>
      obtain ⟨b', hdel, hinv'⟩ := strongInv_deleteTask b0 ih tid
      simp only [mutateBoard] at hmut
      rw [hdel] at hmut
      obtain rfl := Option.some.inj hmut
      exact hinv'
    | move tid src dst i now =>
      obtain ⟨t0, hlook, hsrc⟩ := hargs
      obtain ⟨b', hmv, hinv'⟩ := strongInv_moveTask b0 ih tid src dst i now t0 hlook hsrc
      simp only [mutateBoard] at hmut
      rw [hmv] at hmut
      obtain rfl := Option.some.inj hmut
      exact hinv'
    | reset p' => exact hargs.elim
    | clear => exact hargs.elim

theorem reachable_board_invariant_witness :
    DistinctIds seedParams0 ∧ InvClaim (createDefaultBoard seedParams0) :=
  ⟨by unfold DistinctIds; decide,
    reachable_board_invariant seedParams0 (by unfold DistinctIds; decide) _
      ReachableBoard.seed⟩

theorem takeLast_length_le {α : Type} (n : Nat) (l : List α) :
    (takeLast n l).length ≤ n := by
  simp only [takeLast, List.length_drop]
  omega

theorem storeReachable_sum_le (s : Store) (h : StoreReachable s) :
    s.history.length + s.future.length ≤ 50 := by
  induction h with
  | init b => simp
  | @mutate s0 s1 m hs happ ih =>
    unfold applyMutation at happ
    cases hmb : mutateBoard m s0.board with
    | none => rw [hmb] at happ; simp at happ
    | some b' =>
      rw [hmb] at happ
      simp only [Option.map_some'] at happ
      obtain rfl := Option.some.inj happ
      simp only [List.length_append, List.length_cons, List.length_nil]
      have h49 := takeLast_length_le (α := Board) 49 s0.history
      omega
  | @undoStep s0 hs ih =>
    unfold undo
    cases hlast : s0.history.getLast? with
    | none => simpa using ih
    | some prev =>
      have hne : s0.history ≠ [] := by
        intro hnil
        rw [hnil] at hlast
        simp at hlast
      simp only [List.length_dropLast, List.length_append, List.length_cons,
        List.length_nil]
      have : 0 < s0.history.length := List.length_pos_of_ne_nil hne
      omega
  | @redoStep s0 hs ih =>
    unfold redo
    cases hlast : s0.future.getLast? with
    | none => simpa using ih
    | some nxt =>
      have hne : s0.future ≠ [] := by
        intro hnil
        rw [hnil] at hlast
        simp at hlast
      simp only [List.length_dropLast, List.length_append, List.length_cons,
        List.length_nil]
      have : 0 < s0.future.length := List.length_pos_of_ne_nil hne
      omega

/-- C2: after any single successful mutation, undo restores the exact prior
board and redo after that undo restores the post-mutation board; canUndo and
canRedo are exactly the non-emptiness of the two stacks; and in every
reachable store the undo history holds at most 50 entries. -/
theorem undo_redo_roundtrip (s : Store) (m : Mutation) (s' : Store)
    (happ : applyMutation m s = some s') :
    (undo s').board = s.board ∧
    (redo (undo s')).board = s'.board ∧
    (∀ st : Store, canUndo st = true ↔ st.history ≠ []) ∧
    (∀ st : Store, canRedo st = true ↔ st.future ≠ []) ∧
    (∀ st : Store, StoreReachable st → st.history.length ≤ 50) := by
  unfold applyMutation at happ
  cases hmb : mutateBoard m s.board with
  | none => rw [hmb] at happ; simp at happ
  | some b' =>
  rw [hmb] at happ
  simp only [Option.map_some'] at happ
  obtain rfl := (Option.some.inj happ).symm
  refine ⟨?_, ?_, ?_, ?_, ?_⟩
  · simp [undo, List.getLast?_append]
  · simp [undo, redo, List.getLast?_append]
  · intro st
    simp [canUndo, List.length_pos]
  · intro st
    simp [canRedo, List.length_pos]
  · intro st hst
    have := storeReachable_sum_le st hst
    omega

theorem undo_redo_roundtrip_witness :
    (applyMutation .clear ⟨emptyBoardState, [], []⟩ =
      some ⟨emptyBoardState, [emptyBoardState], []⟩) ∧
    ((undo ⟨emptyBoardState, [emptyBoardState], []⟩).board = emptyBoardState ∧
      (redo (undo ⟨emptyBoardState, [emptyBoardState], []⟩)).board = emptyBoardState ∧
      (∀ st : Store, canUndo st = true ↔ st.history ≠ []) ∧
      (∀ st : Store, canRedo st = true ↔ st.future ≠ []) ∧
      (∀ st : Store, StoreReachable st → st.history.length ≤ 50)) :=
  ⟨by decide, undo_redo_roundtrip ⟨emptyBoardState, [], []⟩ .clear
    ⟨emptyBoardState, [emptyBoardState], []⟩ (by decide)⟩

/-- C10: deleting an absent id leaves the board unchanged but still pushes
one history entry equal to the prior board and empties the redo stack, so
canUndo becomes true and undo returns to a board equal to the current one. -/
theorem delete_absent_pushes_history (s : Store) (taskId : String)
    (habs : alLookup s.board.tasks taskId = none) :
    applyMutation (.del taskId) s =
      some ⟨s.board, takeLast 49 s.history ++ [s.board], []⟩ ∧
    (⟨s.board, takeLast 49 s.history ++ [s.board], []⟩ : Store).board = s.board ∧
    canUndo ⟨s.board, takeLast 49 s.history ++ [s.board], []⟩ = true ∧
    (undo ⟨s.board, takeLast 49 s.history ++ [s.board], []⟩).board = s.board := by
  have hdel : deleteTask s.board taskId = some s.board := by
    simp [deleteTask, habs]
  refine ⟨?_, rfl, ?_, ?_⟩
  · simp [applyMutation, mutateBoard, hdel]
  · simp [canUndo]
  · simp [undo, List.getLast?_append]

theorem delete_absent_pushes_history_witness :
    (alLookup emptyBoardState.tasks "ghost" = none) ∧
    (applyMutation (.del "ghost") ⟨emptyBoardState, [], []⟩ =
        some ⟨emptyBoardState, takeLast 49 ([] : List Board) ++ [emptyBoardState], []⟩ ∧
      (⟨emptyBoardState, takeLast 49 ([] : List Board) ++ [emptyBoardState], []⟩ : Store).board =
        emptyBoardState ∧
      canUndo ⟨emptyBoardState, takeLast 49 ([] : List Board) ++ [emptyBoardState], []⟩ = true ∧
      (undo ⟨emptyBoardState, takeLast 49 ([] : List Board) ++ [emptyBoardState], []⟩).board =
        emptyBoardState) :=
  ⟨by decide, delete_absent_pushes_history ⟨emptyBoardState, [], []⟩ "ghost" (by decide)⟩

theorem sDen_pos (s : ScoredTask) : 0 < sDen s :=
  Nat.lt_of_lt_of_le Nat.zero_lt_one (Nat.le_max_right _ _)

theorem sDenQ_pos (s : ScoredTask) : (0 : ℚ) < (sDen s : ℚ) := by
  exact_mod_cast sDen_pos s

theorem scoreQ_lt_iff (x y : ScoredTask) :
    scoreQ y < scoreQ x ↔ y.mc * sDen x < x.mc * sDen y := by
  unfold scoreQ
  rw [div_lt_div_iff (sDenQ_pos y) (sDenQ_pos x)]
  constructor <;> intro h <;> exact_mod_cast h

theorem scoreQ_eq_iff (x y : ScoredTask) :
    scoreQ x = scoreQ y ↔ x.mc * sDen y = y.mc * sDen x := by
  unfold scoreQ
  rw [div_eq_div_iff (sDenQ_pos x).ne' (sDenQ_pos y).ne']
  constructor <;> intro h <;> exact_mod_cast h

theorem rScore_iff_rScoreQ (a b : ScoredTask) : rScore a b ↔ rScoreQ a b := by
  unfold rScore rScoreQ
  rw [scoreQ_lt_iff, scoreQ_eq_iff]

theorem rScore_total (a b : ScoredTask) : rScore a b ∨ rScore b a := by
  rw [rScore_iff_rScoreQ, rScore_iff_rScoreQ]
  unfold rScoreQ
  rcases lt_trichotomy (scoreQ a) (scoreQ b) with h | h | h
  · right; left; exact h
  · rcases Nat.le_total b.mc a.mc with hm | hm
    · left; right; exact ⟨h, hm⟩
    · right; right; exact ⟨h.symm, hm⟩
  · left; left; exact h

theorem rScore_trans (a b c : ScoredTask) : rScore a b → rScore b c → rScore a c := by
  rw [rScore_iff_rScoreQ, rScore_iff_rScoreQ, rScore_iff_rScoreQ]
  unfold rScoreQ
  rintro (hab | ⟨hab, hab'⟩) (hbc | ⟨hbc, hbc'⟩)
  · left; exact hbc.trans hab
  · left; rw [← hbc]; exact hab
  · left; rw [hab]; exact hbc
  · right; exact ⟨hab.trans hbc, le_trans hbc' hab'⟩

theorem rankedScores_sorted (lower : List Char) (ts : List Task) :
    List.Sorted rScore (rankedScores lower ts) := by
  haveI : IsTotal ScoredTask rScore := ⟨rScore_total⟩
  haveI : IsTrans ScoredTask rScore := ⟨rScore_trans⟩
  exact List.sorted_insertionSort rScore _

theorem sortedByLength_sorted (ts : List Task) :
    List.Sorted rLen (sortedByLength ts) := by
  haveI : IsTotal Task rLen := ⟨fun a b => Nat.le_total _ _⟩
  haveI : IsTrans Task rLen := ⟨fun a b c hab hbc => le_trans hbc hab⟩
  exact List.sorted_insertionSort rLen _

theorem find?_sorted_len_max (l : List Task) (hs : List.Sorted rLen l) (p : Task → Bool)
    (t : Task) (hf : l.find? p = some t) :
    ∀ u ∈ l, p u = true → u.title.length ≤ t.title.length := by
  induction l with
  | nil => cases hf
  | cons a l ih =>
    rw [List.find?_cons] at hf
    obtain ⟨hhead, htail⟩ := List.sorted_cons.mp hs
    intro u hu hpu
    cases hpa : p a
    · rw [hpa] at hf
      rcases List.mem_cons.mp hu with rfl | hu'
      · rw [hpa] at hpu
        cases hpu
      · exact ih htail hf u hu' hpu
    · rw [hpa] at hf
      obtain rfl := Option.some.inj hf
      rcases List.mem_cons.mp hu with rfl | hu'
      · exact le_refl _
      · exact hhead u hu'

theorem findTask_no_quote_decide (message : String) (ts : List Task) (hne : ts ≠ [])
    (hq : quoteDecides message ts = false) :
    findTaskInMessage message ts = strategyStages (lowerStr message) ts := by
  have hE : ts.isEmpty = false := by
    cases ts with
    | nil => exact absurd rfl hne
    | cons a l => rfl
  unfold findTaskInMessage
  rw [hE]
  simp only [Bool.false_eq_true, if_false]
  unfold quoteDecides at hq
  cases hfq : firstQuoted message.toList with
  | none => rfl
  | some qraw =>
    rw [hfq] at hq
    simp only [Bool.or_eq_false_iff] at hq
    obtain ⟨hany, hflt⟩ := hq
    have hfind : ts.find? (fun t => lowerStr t.title == lowerChars qraw) = none := by
      rw [List.find?_eq_none]
      intro x hx
      have := List.any_eq_false.mp hany x hx
      simpa using this
    have hflt' : (ts.filter (fun t =>
        chContains (lowerChars qraw) (lowerStr t.title) ||
          chContains (lowerStr t.title) (lowerChars qraw))).isEmpty = true := by
      simpa using hflt
    have hnilf : ts.filter (fun t =>
        chContains (lowerChars qraw) (lowerStr t.title) ||
          chContains (lowerStr t.title) (lowerChars qraw)) = [] :=
      List.isEmpty_iff.mp hflt'
    simp [hfind, hnilf]

/-- C6: when the quoted rule does not decide and some task title (of length
at least 3, lowercased) is a substring of the lowercased message, the
matcher resolves to a matching task whose title length is maximal among all
matching tasks; in particular the message "fix login bug" against the tasks
"Fix login bug" and "Fix login" resolves to "Fix login bug". -/
theorem matcher_longest_substring :
    (∀ (message : String) (ts : List Task),
      quoteDecides message ts = false →
      (∃ u ∈ ts, substrMatches (lowerStr message) u = true) →
      ∃ t, findTaskInMessage message ts = ⟨some t, []⟩ ∧
        substrMatches (lowerStr message) t = true ∧
        ∀ u ∈ ts, substrMatches (lowerStr message) u = true →
          u.title.length ≤ t.title.length) ∧
    findTaskInMessage "fix login bug" [taskFixLoginBug, taskFixLogin] =
      ⟨some taskFixLoginBug, []⟩ := by
  constructor
  · intro message ts hq hex
    obtain ⟨u0, hu0, hm0⟩ := hex
    have hne : ts ≠ [] := by
      intro h
      rw [h] at hu0
      cases hu0
    have hperm := List.perm_insertionSort rLen ts
    have hmem : u0 ∈ sortedByLength ts := hperm.symm.subset hu0
    cases hf : (sortedByLength ts).find? (substrMatches (lowerStr message)) with
    | none =>
      rw [List.find?_eq_none] at hf
      exact absurd hm0 (hf u0 hmem)
    | some t =>
      refine ⟨t, ?_, List.find?_some hf, ?_⟩
      · rw [findTask_no_quote_decide message ts hne hq]
        unfold strategyStages substringStage
        rw [hf]
      · intro u hu hmu
        exact find?_sorted_len_max _ (sortedByLength_sorted ts) _ t hf u
          (hperm.symm.subset hu) hmu
  · decide

theorem matcher_longest_substring_witness :
    (quoteDecides "fix login bug" [taskFixLoginBug, taskFixLogin] = false ∧
      (∃ u ∈ [taskFixLoginBug, taskFixLogin],
        substrMatches (lowerStr "fix login bug") u = true)) ∧
    (∃ t, findTaskInMessage "fix login bug" [taskFixLoginBug, taskFixLogin] =
        ⟨some t, []⟩ ∧
      substrMatches (lowerStr "fix login bug") t = true ∧
      ∀ u ∈ [taskFixLoginBug, taskFixLogin],
        substrMatches (lowerStr "fix login bug") u = true →
          u.title.length ≤ t.title.length) :=
  ⟨⟨by decide, by decide⟩,
    matcher_longest_substring.1 "fix login bug" [taskFixLoginBug, taskFixLogin]
      (by decide) (by decide)⟩

theorem cond1_iff (s : ScoredTask) :
    3 * sDen s ≤ 5 * s.mc ↔ (3 : ℚ)/5 ≤ scoreQ s := by
  unfold scoreQ
  rw [div_le_div_iff (by norm_num : (0 : ℚ) < 5) (sDenQ_pos s)]
  rw [← Nat.cast_le (α := ℚ)]
  push_cast
  constructor <;> intro h <;> linarith

theorem cond2_iff (s0 s1 : ScoredTask) :
    6 * s1.mc * sDen s0 < 5 * s0.mc * sDen s1 ↔ scoreQ s1 * (6/5) < scoreQ s0 := by
  have hmul : scoreQ s1 * ((6 : ℚ)/5) = (6 * s1.mc : ℚ) / (5 * sDen s1 : ℚ) := by
    unfold scoreQ
    rw [div_mul_div_comm, mul_comm (s1.mc : ℚ) 6, mul_comm ((sDen s1 : ℕ) : ℚ) 5]
  have hpos : (0 : ℚ) < 5 * (sDen s1 : ℚ) := by
    have := sDenQ_pos s1
    linarith
  rw [hmul]
  unfold scoreQ
  rw [div_lt_div_iff hpos (sDenQ_pos s0), ← Nat.cast_lt (α := ℚ)]
  push_cast
  constructor <;> intro h <;> nlinarith [sDenQ_pos s0, sDenQ_pos s1]

/-- C7: when the word-overlap stage is reached and at least two tasks
survive the filter, the top-ranked task resolves exactly when its score is
at least 0.6 and strictly exceeds 1.2 times the runner-up score; otherwise
the result is ambiguous with the top five ranked tasks as candidates and no
resolved task; the ranked list is sorted by score descending then
matchCount descending. -/
theorem matcher_overlap_threshold (message : String) (ts : List Task)
    (hq : quoteDecides message ts = false)
    (hsub : substringStage (lowerStr message) ts = none)
    (s0 s1 : ScoredTask) (rest : List ScoredTask)
    (hrank : rankedScores (lowerStr message) ts = s0 :: s1 :: rest) :
    ((findTaskInMessage message ts).task.isSome ↔
      ((3 : ℚ)/5 ≤ scoreQ s0 ∧ scoreQ s1 * (6/5) < scoreQ s0)) ∧
    (((3 : ℚ)/5 ≤ scoreQ s0 ∧ scoreQ s1 * (6/5) < scoreQ s0) →
      findTaskInMessage message ts = ⟨some s0.task, []⟩) ∧
    (¬((3 : ℚ)/5 ≤ scoreQ s0 ∧ scoreQ s1 * (6/5) < scoreQ s0) →
      findTaskInMessage message ts =
        ⟨none, ((s0 :: s1 :: rest).take 5).map (fun s => s.task)⟩) ∧
    List.Sorted rScoreQ (s0 :: s1 :: rest) := by
  have hne : ts ≠ [] := by
    intro h
    rw [h] at hrank
    simp [rankedScores, List.insertionSort] at hrank
  have hred : findTaskInMessage message ts =
      overlapStage (lowerStr message) ts := by
    rw [findTask_no_quote_decide message ts hne hq]
    unfold strategyStages
    rw [hsub]
  have hstage : overlapStage (lowerStr message) ts =
      if decide (3 * sDen s0 ≤ 5 * s0.mc) &&
          decide (6 * s1.mc * sDen s0 < 5 * s0.mc * sDen s1) then
        ⟨some s0.task, []⟩
      else ⟨none, ((s0 :: s1 :: rest).take 5).map (fun s => s.task)⟩ := by
    unfold overlapStage
    rw [hrank]
  have hcond : (decide (3 * sDen s0 ≤ 5 * s0.mc) &&
      decide (6 * s1.mc * sDen s0 < 5 * s0.mc * sDen s1)) = true ↔
      ((3 : ℚ)/5 ≤ scoreQ s0 ∧ scoreQ s1 * (6/5) < scoreQ s0) := by
    rw [Bool.and_eq_true, decide_eq_true_iff, decide_eq_true_iff, cond1_iff, cond2_iff]
  have hsorted : List.Sorted rScoreQ (s0 :: s1 :: rest) := by
    have := rankedScores_sorted (lowerStr message) ts
    rw [hrank] at this
    exact this.imp (fun h => (rScore_iff_rScoreQ _ _).mp h)
  cases hB : (decide (3 * sDen s0 ≤ 5 * s0.mc) &&
      decide (6 * s1.mc * sDen s0 < 5 * s0.mc * sDen s1)) with
  | false =>
    have hnc : ¬((3 : ℚ)/5 ≤ scoreQ s0 ∧ scoreQ s1 * (6/5) < scoreQ s0) := by
      rw [← hcond, hB]
      simp
    rw [hred, hstage, hB]
    simp only [Bool.false_eq_true, if_false]
    refine ⟨?_, ?_, ?_, hsorted⟩
    · simp [hnc]
    · intro h
      exact absurd h hnc
    · intro h
      trivial
  | true =>
    have hyc : (3 : ℚ)/5 ≤ scoreQ s0 ∧ scoreQ s1 * (6/5) < scoreQ s0 := hcond.mp hB
    rw [hred, hstage, hB]
    simp only [if_true]
    refine ⟨?_, ?_, ?_, hsorted⟩
    · simp [hyc]
    · intro h
      trivial
    · intro h
      exact absurd hyc h

theorem matcher_overlap_threshold_witness :
    (quoteDecides "alpha" [taskAlphaBeta, taskAlphaGamma] = false ∧
      substringStage (lowerStr "alpha") [taskAlphaBeta, taskAlphaGamma] = none ∧
      rankedScores (lowerStr "alpha") [taskAlphaBeta, taskAlphaGamma] =
        [⟨taskAlphaBeta, 1, 2⟩, ⟨taskAlphaGamma, 1, 2⟩]) ∧
    (((findTaskInMessage "alpha" [taskAlphaBeta, taskAlphaGamma]).task.isSome ↔
      ((3 : ℚ)/5 ≤ scoreQ ⟨taskAlphaBeta, 1, 2⟩ ∧
        scoreQ ⟨taskAlphaGamma, 1, 2⟩ * (6/5) < scoreQ ⟨taskAlphaBeta, 1, 2⟩)) ∧
    (((3 : ℚ)/5 ≤ scoreQ ⟨taskAlphaBeta, 1, 2⟩ ∧
        scoreQ ⟨taskAlphaGamma, 1, 2⟩ * (6/5) < scoreQ ⟨taskAlphaBeta, 1, 2⟩) →
      findTaskInMessage "alpha" [taskAlphaBeta, taskAlphaGamma] =
        ⟨some taskAlphaBeta, []⟩) ∧
    (¬((3 : ℚ)/5 ≤ scoreQ ⟨taskAlphaBeta, 1, 2⟩ ∧
        scoreQ ⟨taskAlphaGamma, 1, 2⟩ * (6/5) < scoreQ ⟨taskAlphaBeta, 1, 2⟩) →
      findTaskInMessage "alpha" [taskAlphaBeta, taskAlphaGamma] =
        ⟨none, (([⟨taskAlphaBeta, 1, 2⟩, ⟨taskAlphaGamma, 1, 2⟩] :
          List ScoredTask).take 5).map (fun s => s.task)⟩) ∧
    List.Sorted rScoreQ [⟨taskAlphaBeta, 1, 2⟩, ⟨taskAlphaGamma, 1, 2⟩]) :=
  ⟨⟨by decide, by decide, by decide⟩,
    matcher_overlap_threshold "alpha" [taskAlphaBeta, taskAlphaGamma]
      (by decide) (by decide) ⟨taskAlphaBeta, 1, 2⟩ ⟨taskAlphaGamma, 1, 2⟩ []
      (by decide)⟩

/-- C4: the code is not a safe no-op on absent mutation targets.  With id
"ghost" absent, `moveTask` to the done column throws (the `none` result
models the `TypeError` on reading `completedAt` of `undefined`), and
`updateTask` installs a phantom entry under the absent key, changing the
board; `deleteTask` alone is a true no-op. -/
theorem invalid_target_evidence :
    moveTask emptyBoardState "ghost" .todo .done 0 "T0" = none ∧
    (updateTask emptyBoardState "ghost" { noUpdates with title := some "x" }).tasks ≠
      emptyBoardState.tasks ∧
    deleteTask emptyBoardState "ghost" = some emptyBoardState := by
  refine ⟨by decide, ?_, by decide⟩
  decide

/-- C8: the date phrase resolver maps "today" to the current day, "in 3
days" to today plus 3, "next monday" to a day between 1 and 7 days ahead
that falls on a Monday, and unrecognised text with no direct calendar-date
parse of year above 2000 (such as "garbage text") to null.  `dp` is the
behaviour of the direct `new Date(text)` parse and `addMonths` the
`setMonth` arithmetic; neither is reached on these phrases except `dp` on
the garbage text, where the hypothesis states its parse fails or yields a
year at most 2000. -/
theorem date_resolver_phrases (dp : List Char → Option (Int × Int))
    (addMonths : Int → Int → Int) (today : Int)
    (hgarbage : dp "garbage text".toList = none ∨
      ∃ d y, dp "garbage text".toList = some (d, y) ∧ y ≤ 2000) :
    parseNaturalDate dp addMonths "today" today = some today ∧
    parseNaturalDate dp addMonths "in 3 days" today = some (today + 3) ∧
    (∃ k : Int, 1 ≤ k ∧ k ≤ 7 ∧
      parseNaturalDate dp addMonths "next monday" today = some (today + k) ∧
      dayOfWeek (today + k) = 1) ∧
    parseNaturalDate dp addMonths "garbage text" today = none := by
  refine ⟨?_, ?_, ?_, ?_⟩
  · rfl
  · rfl
  · have hval : parseNaturalDate dp addMonths "next monday" today =
        some (today + (if (1 : Int) - dayOfWeek today ≤ 0
          then 1 - dayOfWeek today + 7 else 1 - dayOfWeek today)) := by
      rfl
    by_cases hdu : (1 : Int) - dayOfWeek today ≤ 0
    · refine ⟨1 - dayOfWeek today + 7, ?_, ?_, ?_, ?_⟩
      · unfold dayOfWeek at hdu ⊢; omega
      · unfold dayOfWeek at hdu ⊢; omega
      · rw [hval, if_pos hdu]
      · unfold dayOfWeek at hdu ⊢; omega
    · refine ⟨1 - dayOfWeek today, ?_, ?_, ?_, ?_⟩
      · unfold dayOfWeek at hdu ⊢; omega
      · unfold dayOfWeek at hdu ⊢; omega
      · rw [hval, if_neg hdu]
      · unfold dayOfWeek at hdu ⊢; omega
  · have h : dateIntentOf (trimChars (lowerChars "garbage text".toList)) =
        none := by decide
    have htr : trimChars (lowerChars "garbage text".toList) =
        "garbage text".toList := by decide
    have h2 : dateIntentOf "garbage text".toList = none := htr ▸ h
    rcases hgarbage with hg | ⟨d, y, hg, hy⟩
    · simp only [parseNaturalDate, parseNaturalDateL]
      rw [htr, h2, hg]
    · have hny : ¬(2000 < y) := by omega
      simp only [parseNaturalDate, parseNaturalDateL]
      rw [htr, h2, hg]
      simp [hny]

/-- Witness for C8 at a concrete direct parser (always failing), a trivial
month arithmetic and day index 0. -/
theorem date_resolver_phrases_witness :
    ((fun _ : List Char => (none : Option (Int × Int)))
        "garbage text".toList = none ∨
      ∃ d y, (fun _ : List Char => (none : Option (Int × Int)))
        "garbage text".toList = some (d, y) ∧ y ≤ 2000) ∧
    (parseNaturalDate (fun _ => none) (fun a _ => a) "today" 0 = some 0 ∧
    parseNaturalDate (fun _ => none) (fun a _ => a) "in 3 days" 0 =
      some (0 + 3) ∧
    (∃ k : Int, 1 ≤ k ∧ k ≤ 7 ∧
      parseNaturalDate (fun _ => none) (fun a _ => a) "next monday" 0 =
        some (0 + k) ∧
      dayOfWeek (0 + k) = 1) ∧
    parseNaturalDate (fun _ => none) (fun a _ => a) "garbage text" 0 =
      none) :=
  ⟨Or.inl rfl,
    date_resolver_phrases (fun _ => none) (fun a _ => a) 0 (Or.inl rfl)⟩

/-- C9: on the empty board, processing "Create task: Fix login bug" emits
the create action with column todo, title "Fix login bug", medium
priority, no due date, no tags and empty description, together with a
nonempty confirmation reply — for every direct date parser, month
arithmetic, day index, date renderer and any behaviour of the branches
outside the create path, none of which are reached. -/
theorem process_create_fix_login_bug (dp : List Char → Option (Int × Int))
    (addMonths : Int → Int → Int) (today : Int) (showDay : Int → List Char)
    (tagAddResp tagRemoveResp laterIntents :
      List Char → Board → ChatResponse) :
    (processMessage dp addMonths today showDay tagAddResp tagRemoveResp
        laterIntents "Create task: Fix login bug" emptyBoardState).action =
      some (.create .todo "Fix login bug".toList [] .medium none []) ∧
    (processMessage dp addMonths today showDay tagAddResp tagRemoveResp
        laterIntents "Create task: Fix login bug" emptyBoardState).text ≠
      [] := by
  constructor
  · rfl
  · exact List.cons_ne_nil _ _

end FlowBoard
